import Mathlib

/-!
Verification of the vault-storage-engine write/read pipeline
(`pkg/datastorage`: `StoreData`, `RetrieveData`) and the local shard store
(`pkg/sharding`: `LocalShardStore`).

Modelling conventions.
* Byte strings are `List Nat`.
* The injected collaborators (gzip codec, cipher, erasure coder, Merkle
  committer) live in packages that are not part of the pipeline source; the
  pipeline is parametrised over them (`Collab`), and theorems assume exactly
  the contracts the specification states for them.
* The SQLite-backed metadata catalogue (`pkg/bucket`) is modelled from the
  specification's MetadataCatalogue contract as an in-memory `DB`.
* The shard store interface is a state-passing capability `ShardStoreOps`.
* `StoreData` additionally returns the trace of its observable calls
  (`Event`), used to state ordering properties of the write path.
-/

namespace VaultStorageEngine

/-- Byte strings are modelled as lists of naturals (one entry per byte). -/
abbrev Bytes := List Nat

/-- Decimal digit character; models the characters emitted by Go's `%d` verb. -/
def digitChar (d : Nat) : Char := Char.ofNat (48 + d)

/-- Decimal rendering of a natural number, fuel-structured so that it computes
by kernel reduction; models `fmt.Sprintf("%d", n)` for `n ≥ 0`. -/
def natReprAux : Nat → Nat → List Char
  | 0, _ => []
  | fuel + 1, n =>
    if n < 10 then [digitChar n] else natReprAux fuel (n / 10) ++ [digitChar (n % 10)]

/-- Decimal rendering of a natural number; `n + 1` units of fuel always
suffice because `n` has at most `n + 1` digits. -/
def natRepr (n : Nat) : String := String.mk (natReprAux (n + 1) n)

/-- Decimal rendering of an integer; models `fmt.Sprintf("%d", i)`. -/
def intRepr (i : Int) : String :=
  if i < 0 then "-" ++ natRepr i.natAbs else natRepr i.natAbs

/-- Digit-sequence parser used by `atoi`; the accumulator mirrors
`strconv.Atoi`'s digit loop. Returns `none` on any non-digit character. -/
def parseDigits : List Char → Nat → Option Nat
  | [], acc => some acc
  | c :: rest, acc =>
    if c.isDigit then parseDigits rest (acc * 10 + (c.toNat - 48)) else none

/-- Models `strconv.Atoi`: an optional sign followed by one or more decimal
digits; anything else is an error (`none`). -/
def atoi (s : String) : Option Int :=
  match s.data with
  | [] => none
  | c :: rest =>
    if c = '+' then
      if rest = [] then none else (parseDigits rest 0).map Int.ofNat
    else if c = '-' then
      if rest = [] then none else (parseDigits rest 0).map (fun n => -(Int.ofNat n))
    else (parseDigits (c :: rest) 0).map Int.ofNat

/-- Models `strings.TrimPrefix pre` applied to `s`: drops `pre` from the front
of `s` when it is present, otherwise returns `s` unchanged. -/
def trimLeading (pre s : String) : String :=
  if pre.data.isPrefixOf s.data then String.mk (s.data.drop pre.data.length) else s

/-- Models `filepath.Base` (Unix rules): the last element of the path after
trailing slashes are removed; `"."` for the empty path and `"/"` for an
all-slash path. -/
def filepathBase (path : String) : String :=
  if path = "" then "."
  else
    match path.data.reverse.dropWhile (fun c => c = '/') with
    | [] => "/"
    | cs => String.mk ((cs.takeWhile (fun c => c ≠ '/')).reverse)

/-- Models `filepath.Ext`: the suffix of the final path element starting at its
final dot, empty when the final element contains no dot. -/
def filepathExt (path : String) : String :=
  let fin := path.data.reverse.takeWhile (fun c => c ≠ '/')
  if fin.contains '.' then String.mk ((fin.takeWhile (fun c => c ≠ '.') ++ ['.']).reverse)
  else ""

/-- Models `filepath.Join` on already-clean components (on which Go's `Clean`
is the identity): the non-empty components joined with `/`. -/
def filepathJoin (parts : List String) : String :=
  match parts.filter (fun p => p ≠ "") with
  | [] => ""
  | p :: rest => rest.foldl (fun acc q => acc ++ "/" ++ q) p

/-- A wall-clock instant as Go's `time.Time` presents it: a calendar date-time
together with the zone offset (minutes east of UTC) of the time's location.
`time.Now()` carries the process-local zone, not UTC. -/
structure GoTime where
  year : Nat
  month : Nat
  day : Nat
  hour : Nat
  minute : Nat
  second : Nat
  offsetMinutes : Int
deriving DecidableEq, Repr

/-- Two-digit zero-padded decimal; models the `01`/`02`/… layout fields. -/
def pad2 (n : Nat) : String := if n < 10 then "0" ++ natRepr n else natRepr n

/-- Four-digit zero-padded decimal; models the `2006` layout field. -/
def pad4 (n : Nat) : String :=
  if n < 10 then "000" ++ natRepr n
  else if n < 100 then "00" ++ natRepr n
  else if n < 1000 then "0" ++ natRepr n
  else natRepr n

/-- The date-time part of the RFC 3339 layout, rendered in the time's own zone. -/
def rfc3339DateTime (t : GoTime) : String :=
  pad4 t.year ++ "-" ++ pad2 t.month ++ "-" ++ pad2 t.day ++ "T" ++
    pad2 t.hour ++ ":" ++ pad2 t.minute ++ ":" ++ pad2 t.second

/-- The zone designator of the RFC 3339 layout `Z07:00`: `Z` exactly when the
offset is zero, otherwise the signed `hh:mm` offset. -/
def rfc3339Offset (t : GoTime) : String :=
  if t.offsetMinutes = 0 then "Z"
  else
    (if t.offsetMinutes < 0 then "-" else "+") ++
      pad2 (t.offsetMinutes.natAbs / 60) ++ ":" ++ pad2 (t.offsetMinutes.natAbs % 60)

/-- Models `t.Format(time.RFC3339)` for the layout `2006-01-02T15:04:05Z07:00`:
the date-time rendered in the time's own zone followed by its zone designator. -/
def formatRFC3339 (t : GoTime) : String := rfc3339DateTime t ++ rfc3339Offset t

/-- A timestamp string is rendered as a UTC instant exactly when it carries the
`Z` zone designator. -/
def endsWithZ (s : String) : Bool :=
  match s.data.getLast? with
  | some c => c = 'Z'
  | none => false

/-- The persisted version record, field for field the Go struct
`bucket.VersionMetadata` as assembled by `StoreData`; the Go maps are modelled
as association lists in insertion order. -/
structure VersionMetadata where
  BucketID : String
  ObjectID : String
  VersionID : String
  Filename : String
  Filesize : String
  Format : String
  CreationDate : String
  ShardLocations : List (String × String)
  Proofs : List (String × String)
deriving DecidableEq, Repr

/-- Modelled from the spec: the MetadataCatalogue state (`pkg/bucket` is not
under src/). Holds the bucket list, the object registry
(object-id, bucket-id, filename), the version records keyed by
(object-id, version-id), and the per-object current root version. -/
structure DB where
  buckets : List String
  objects : List (String × String × String)
  versions : List ((String × String) × (VersionMetadata × Bytes))
  rootVersions : List (String × String)
deriving DecidableEq, Repr

/-- Modelled from the spec: `bucket-exists` (§4.7); the source's
`SELECT EXISTS(SELECT 1 FROM buckets WHERE bucket_id = ?)`. -/
def bucketExistsQuery (db : DB) (bucketID : String) : Bool :=
  db.buckets.contains bucketID

/-- Modelled from the spec: `get-version` (§4.7); `bucket.GetObjectMetadata`
keyed by (object-id, version-id). -/
def getVersion (db : DB) (objectID versionID : String) :
    Option (VersionMetadata × Bytes) :=
  (db.versions.find? (fun e => e.1 = (objectID, versionID))).map (fun e => e.2)

/-- Modelled from the spec: `get-root-version` (§4.7) — "version-id | empty";
`bucket.GetRootVersion`, whose error `StoreData` discards. -/
def getRootVersion (db : DB) (objectID : String) : String :=
  match db.rootVersions.find? (fun e => e.1 = objectID) with
  | some e => e.2
  | none => ""

/-- Modelled from the spec: `add-version` (§4.7) — "atomic; returns
`DuplicateVersion` if already present"; `bucket.AddVersion`. On failure the
catalogue is unchanged. -/
def addVersion (db : DB) (bucketID objectID versionID rootVersion : String)
    (metadata : VersionMetadata) (cipherText : Bytes) : Except String DB :=
  if (getVersion db objectID versionID).isSome then Except.error "duplicate version"
  else
    Except.ok (DB.mk db.buckets db.objects
      (((objectID, versionID), (metadata, cipherText)) :: db.versions)
      ((objectID, versionID) :: db.rootVersions))

/-- Modelled from the spec: `register-object` (§4.7) — "idempotent";
`bucket.AddObject`. Registers (or re-registers) the object's filename. -/
def addObject (db : DB) (bucketID objectID filename : String) : Except String DB :=
  Except.ok (DB.mk db.buckets
    ((objectID, bucketID, filename) :: db.objects.filter (fun e => e.1 ≠ objectID))
    db.versions db.rootVersions)

/-- The configuration fields the pipeline reads (`config.Config`). -/
structure Config where
  EncryptionKey : Bytes

/-- Modelled from the spec: `bucket.GetEncryptionKey` (`pkg/bucket`, not under
src/); §6 — "encryption-key: raw symmetric key bytes used by Cipher". -/
def getEncryptionKey (cfg : Config) : Except String Bytes :=
  Except.ok cfg.EncryptionKey

/-- Modelled from the spec: `utils.ConvertSliceToMap` (`pkg/utils`, not under
src/); §9 — the slice-to-map conversion for proofs, with the recommended
indexed keys matching `shard-locations`. -/
def convertSliceToMap (proofs : List String) : List (String × String) :=
  (List.range proofs.length).map (fun i => ("shard_" ++ natRepr i, proofs.getD i ""))

/-- The `sharding.ShardStore` interface: an injected capability over a backing
state of type `σ` (Go mutates the backing store in place; here the new state
is returned). -/
structure ShardStoreOps (σ : Type) where
  storeShard : σ → String → Int → Bytes → String → Except String σ
  retrieveShard : σ → String → Int → String → Except String Bytes

/-- `sharding.LocalShardStore`. -/
structure LocalShardStore where
  BasePath : String

/-- The file system seen by the local backend: a map from file path to file
contents, as an association list (first match wins). -/
abbrev FileSystem := List (String × Bytes)

/-- The shard file name `fmt.Sprintf("%s_shard_%d", objectID, shardIdx)`. -/
def shardFileName (objectID : String) (shardIdx : Int) : String :=
  objectID ++ "_shard_" ++ intRepr shardIdx

/-- The path `filepath.Join(store.BasePath, location, shardFileName)` used by
both `StoreShard` and `RetrieveShard`. -/
def shardPathOf (store : LocalShardStore) (objectID : String) (shardIdx : Int)
    (location : String) : String :=
  filepathJoin [store.BasePath, location, shardFileName objectID shardIdx]

/-- `LocalShardStore.StoreShard`: `os.MkdirAll` (which cannot fail on the
map-backed file-system model) followed by `ioutil.WriteFile`, which creates or
truncates the file at the shard path. -/
def localStoreShard (store : LocalShardStore) (fs : FileSystem) (objectID : String)
    (shardIdx : Int) (shard : Bytes) (location : String) : Except String FileSystem :=
  Except.ok ((shardPathOf store objectID shardIdx location, shard)
    :: fs.filter (fun e => e.1 ≠ shardPathOf store objectID shardIdx location))

/-- `LocalShardStore.RetrieveShard`: `ioutil.ReadFile` at the shard path. -/
def localRetrieveShard (store : LocalShardStore) (fs : FileSystem) (objectID : String)
    (shardIdx : Int) (location : String) : Except String Bytes :=
  match fs.find? (fun e => e.1 = shardPathOf store objectID shardIdx location) with
  | some e => Except.ok e.2
  | none => Except.error "failed to read shard from file"

/-- The typed error taxonomy of the pipeline; each constructor corresponds to
one `fmt.Errorf` wrapping site in `StoreData`/`RetrieveData`.
`panicIndexOutOfRange` models the Go runtime panic of the unchecked slice
write `shards[shardIdx] = shard` on the read path. -/
inductive Err where
  | bucketNotFound : String → Err
  | compressFailed : String → Err
  | encryptionFailed : String → Err
  | erasureCodingFailed : String → Err
  | merkleTreeFailed : String → Err
  | indexOutOfRangeLocations : Nat → Nat → Err
  | storeShardFailed : Nat → String → Err
  | getProofFailed : String → Err
  | addVersionFailed : String → Err
  | addObjectFailed : String → Err
  | metadataFetchFailed : String → Err
  | insufficientShards : Err
  | erasureDecodeFailed : String → Err
  | encryptionKeyFailed : String → Err
  | decryptionFailed : String → Err
  | decompressFailed : String → Err
  | filenameFetchFailed : String → Err
  | panicIndexOutOfRange : Int → Nat → Err
deriving DecidableEq, Repr

/-- The observable collaborator calls of one `StoreData` execution, in order:
each `ShardStore.StoreShard` call with its success flag, and the
`bucket.AddVersion` / `bucket.AddObject` invocations. -/
inductive Event where
  | putCall : Nat → Bool → Event
  | addVersionCall : Event
  | addObjectCall : Event
deriving DecidableEq, Repr

/-- What `StoreData` returns on success: the version id, the placement map and
the proof list. -/
structure StoreResult where
  versionID : String
  shardLocations : List (String × String)
  proofs : List String
deriving DecidableEq, Repr

/-- The shard-placement loop of `StoreData`
(`for idx, shard := range shards`): checks `idx >= len(locations)`, stores the
shard at `locations[idx]`, and extends the placement map with
`shard_<idx> ↦ location`. -/
def storeShardsLoop {σ : Type} (ops : ShardStoreOps σ) (objectID : String)
    (locations : List String) :
    List Bytes → Nat → σ → Except Err (σ × List (String × String)) × List Event
  | [], _, st => (Except.ok (st, []), [])
  | shard :: rest, idx, st =>
    if idx ≥ locations.length then
      (Except.error (Err.indexOutOfRangeLocations idx locations.length), [])
    else
      match ops.storeShard st objectID (Int.ofNat idx) shard (locations.getD idx "") with
      | Except.error msg =>
        (Except.error (Err.storeShardFailed idx msg), [Event.putCall idx false])
      | Except.ok st' =>
        let r := storeShardsLoop ops objectID locations rest (idx + 1) st'
        (r.1.map (fun p => (p.1, ("shard_" ++ natRepr idx, locations.getD idx "") :: p.2)),
          Event.putCall idx true :: r.2)

/-- The proof-generation loop of `StoreData` (`for _, shard := range shards`). -/
def proofsLoop {τ : Type} (getProof : τ → Bytes → Except String String) (tree : τ) :
    List Bytes → Except Err (List String)
  | [] => Except.ok []
  | shard :: rest =>
    match getProof tree shard with
    | Except.error msg => Except.error (Err.getProofFailed msg)
    | Except.ok proof =>
      match proofsLoop getProof tree rest with
      | Except.error e => Except.error e
      | Except.ok ps => Except.ok (proof :: ps)

/-- The injected collaborators of the pipeline (`pkg/encryption`,
`pkg/erasurecoding`, `pkg/proofofinclusion` and the gzip codec; none under
src/), together with the process-wide erasure parameters
`erasurecoding.DataShards` / `erasurecoding.ParityShards`. `τ` is the Merkle
tree type. -/
structure Collab (τ : Type) where
  dataShards : Nat
  parityShards : Nat
  compress : Bytes → Except String Bytes
  decompress : Bytes → Except String Bytes
  encrypt : Bytes → Bytes → Except String Bytes
  decrypt : Bytes → Bytes → Except String Bytes
  encode : Bytes → Except String (List Bytes)
  decode : List (Option Bytes) → Except String Bytes
  buildMerkleTree : List Bytes → Except String τ
  getProof : τ → Bytes → Except String String

/-- `datastorage.StoreData`. The fresh `uuid.New().String()` and the formatted
`time.Now()` stamp are explicit inputs (`versionID`, `nowStr`); the SQLite
catalogue is the spec-modelled `DB`. Returns the Go results together with the
final catalogue state, the final shard-store state and the event trace. -/
def StoreData {σ τ : Type} (collab : Collab τ) (db : DB) (data : Bytes)
    (bucketID objectID filePath : String) (ops : ShardStoreOps σ) (st : σ)
    (cfg : Config) (locations : List String) (versionID nowStr : String) :
    Except Err StoreResult × DB × σ × List Event :=
  if ¬ bucketExistsQuery db bucketID then
    (Except.error (Err.bucketNotFound bucketID), db, st, [])
  else
    match collab.compress data with
    | Except.error msg => (Except.error (Err.compressFailed msg), db, st, [])
    | Except.ok compressedData =>
      match collab.encrypt compressedData cfg.EncryptionKey with
      | Except.error msg => (Except.error (Err.encryptionFailed msg), db, st, [])
      | Except.ok cipherText =>
        match collab.encode cipherText with
        | Except.error msg => (Except.error (Err.erasureCodingFailed msg), db, st, [])
        | Except.ok shards =>
          match collab.buildMerkleTree shards with
          | Except.error msg => (Except.error (Err.merkleTreeFailed msg), db, st, [])
          | Except.ok tree =>
            match storeShardsLoop ops objectID locations shards 0 st with
            | (Except.error e, tr) => (Except.error e, db, st, tr)
            | (Except.ok (st', shardLocs), tr) =>
              match proofsLoop collab.getProof tree shards with
              | Except.error e => (Except.error e, db, st', tr)
              | Except.ok proofs =>
                match addVersion db bucketID objectID versionID
                    (getRootVersion db objectID)
                    (VersionMetadata.mk bucketID objectID versionID
                      (filepathBase filePath) ""
                      (trimLeading "." (filepathExt filePath)) nowStr shardLocs
                      (convertSliceToMap proofs)) cipherText with
                | Except.error msg =>
                  (Except.error (Err.addVersionFailed msg), db, st',
                    tr ++ [Event.addVersionCall])
                | Except.ok db1 =>
                  match addObject db1 bucketID objectID (filepathBase filePath) with
                  | Except.error msg =>
                    (Except.error (Err.addObjectFailed msg), db1, st',
                      tr ++ [Event.addVersionCall, Event.addObjectCall])
                  | Except.ok db2 =>
                    (Except.ok (StoreResult.mk versionID shardLocs proofs), db2, st',
                      tr ++ [Event.addVersionCall, Event.addObjectCall])

/-- The shard-gathering loop of `RetrieveData`
(`for shardKey, location := range metadata.ShardLocations`): a key that fails
to parse or a shard whose fetch fails counts the slot as missing and the loop
continues; a successfully fetched shard is written to the slot at its parsed
index. The Go slice write `shards[shardIdx] = shard` has no bounds check and
panics when the index is out of range, modelled by `Err.panicIndexOutOfRange`. -/
def gatherShards {σ : Type} (ops : ShardStoreOps σ) (st : σ) (objectID : String) :
    List (String × String) → List (Option Bytes) → Nat →
    Except Err (List (Option Bytes) × Nat)
  | [], slots, missing => Except.ok (slots, missing)
  | (shardKey, location) :: rest, slots, missing =>
    match atoi (trimLeading "shard_" shardKey) with
    | none => gatherShards ops st objectID rest slots (missing + 1)
    | some shardIdx =>
      match ops.retrieveShard st objectID shardIdx location with
      | Except.error _ => gatherShards ops st objectID rest slots (missing + 1)
      | Except.ok shard =>
        if 0 ≤ shardIdx ∧ shardIdx.toNat < slots.length then
          gatherShards ops st objectID rest (slots.set shardIdx.toNat (some shard)) missing
        else Except.error (Err.panicIndexOutOfRange shardIdx slots.length)

/-- The number of slots `RetrieveData`'s gather loop classifies as missing:
one per placement entry whose key fails to parse or whose fetch fails. -/
def countMissing {σ : Type} (ops : ShardStoreOps σ) (st : σ) (objectID : String) :
    List (String × String) → Nat
  | [] => 0
  | (shardKey, location) :: rest =>
    (match atoi (trimLeading "shard_" shardKey) with
     | none => 1
     | some shardIdx =>
       match ops.retrieveShard st objectID shardIdx location with
       | Except.error _ => 1
       | Except.ok _ => 0) + countMissing ops st objectID rest

/-- `datastorage.RetrieveData`: fetch the version record, gather shards into
`DataShards + ParityShards` slots, fail when more than `ParityShards` are
missing, then erasure-decode, decrypt, decompress, and return the payload with
the filename fetched from the objects table. -/
def RetrieveData {σ τ : Type} (collab : Collab τ) (db : DB)
    (bucketID objectID versionID : String) (ops : ShardStoreOps σ) (st : σ)
    (cfg : Config) : Except Err (Bytes × String) :=
  match getVersion db objectID versionID with
  | none => Except.error (Err.metadataFetchFailed versionID)
  | some md =>
    match gatherShards ops st objectID md.1.ShardLocations
        (List.replicate (collab.dataShards + collab.parityShards) none) 0 with
    | Except.error e => Except.error e
    | Except.ok gathered =>
      if collab.parityShards < gathered.2 then Except.error Err.insufficientShards
      else
        match collab.decode gathered.1 with
        | Except.error msg => Except.error (Err.erasureDecodeFailed msg)
        | Except.ok cipherText =>
          match getEncryptionKey cfg with
          | Except.error msg => Except.error (Err.encryptionKeyFailed msg)
          | Except.ok key =>
            match collab.decrypt cipherText key with
            | Except.error msg => Except.error (Err.decryptionFailed msg)
            | Except.ok compressedData =>
              match collab.decompress compressedData with
              | Except.error msg => Except.error (Err.decompressFailed msg)
              | Except.ok plainText =>
                match db.objects.find? (fun e => e.1 = objectID) with
                | none => Except.error (Err.filenameFetchFailed objectID)
                | some e => Except.ok (plainText, e.2.2)

/-! ### Decimal rendering and parsing round-trip -/

theorem digitChar_isDigit {d : Nat} (hd : d < 10) : (digitChar d).isDigit = true := by
  interval_cases d <;> decide

theorem digitChar_toNat {d : Nat} (hd : d < 10) : (digitChar d).toNat = 48 + d := by
  interval_cases d <;> decide

theorem digitChar_ne_plus {d : Nat} (hd : d < 10) : digitChar d ≠ '+' := by
  interval_cases d <;> decide

theorem digitChar_ne_minus {d : Nat} (hd : d < 10) : digitChar d ≠ '-' := by
  interval_cases d <;> decide

theorem parseDigits_append (l1 l2 : List Char) :
    ∀ acc, parseDigits (l1 ++ l2) acc =
      match parseDigits l1 acc with
      | none => none
      | some a => parseDigits l2 a := by
  induction l1 with
  | nil => intro acc; rfl
  | cons c rest ih =>
    intro acc
    by_cases hc : c.isDigit
    · simp [parseDigits, hc, ih]
    · simp [parseDigits, hc]

theorem parse_natReprAux :
    ∀ fuel n, n < fuel → ∃ k, 0 < k ∧ ∀ acc,
      parseDigits (natReprAux fuel n) acc = some (acc * 10 ^ k + n) := by
  intro fuel
  induction fuel with
  | zero => intro n h; omega
  | succ fuel ih =>
    intro n h
    by_cases h10 : n < 10
    · refine ⟨1, one_pos, fun acc => ?_⟩
      simp [natReprAux, h10, parseDigits, digitChar_isDigit h10, digitChar_toNat h10]
    · have hrec : n / 10 < fuel := by
        have := Nat.div_lt_self (by omega : 0 < n) (by omega : 1 < 10)
        omega
      obtain ⟨k, hk, hIH⟩ := ih (n / 10) hrec
      refine ⟨k + 1, by omega, fun acc => ?_⟩
      have hm : n % 10 < 10 := Nat.mod_lt n (by omega)
      simp only [natReprAux, if_neg h10]
      rw [parseDigits_append]
      rw [hIH acc]
      simp only [parseDigits, digitChar_isDigit hm, digitChar_toNat hm, if_pos]
      have hsub : 48 + n % 10 - 48 = n % 10 := by omega
      rw [hsub]
      have hcalc : (acc * 10 ^ k + n / 10) * 10 + n % 10
          = acc * (10 ^ k * 10) + (10 * (n / 10) + n % 10) := by ring
      rw [hcalc, Nat.div_add_mod, ← pow_succ]

theorem natReprAux_head :
    ∀ fuel n, n < fuel → ∃ d cs, natReprAux fuel n = digitChar d :: cs ∧ d < 10 := by
  intro fuel
  induction fuel with
  | zero => intro n h; omega
  | succ fuel ih =>
    intro n h
    by_cases h10 : n < 10
    · exact ⟨n, [], by simp [natReprAux, h10], h10⟩
    · have hrec : n / 10 < fuel := by
        have := Nat.div_lt_self (by omega : 0 < n) (by omega : 1 < 10)
        omega
      obtain ⟨d, cs, hshape, hd⟩ := ih (n / 10) hrec
      exact ⟨d, cs ++ [digitChar (n % 10)], by simp [natReprAux, h10, hshape], hd⟩

theorem atoi_natRepr (n : Nat) : atoi (natRepr n) = some (Int.ofNat n) := by
  obtain ⟨d, cs, hshape, hd⟩ := natReprAux_head (n + 1) n (Nat.lt_succ_self n)
  obtain ⟨k, hk, hparse⟩ := parse_natReprAux (n + 1) n (Nat.lt_succ_self n)
  have h1 : (natRepr n).data = digitChar d :: cs := by
    simp [natRepr, hshape]
  have hplus := digitChar_ne_plus hd
  have hminus := digitChar_ne_minus hd
  have hp : parseDigits (digitChar d :: cs) 0 = some n := by
    rw [← hshape, hparse 0]
    simp
  rw [atoi, h1]
  simp [hplus, hminus, hp]

theorem isPrefixOf_append_self (l t : List Char) : l.isPrefixOf (l ++ t) = true := by
  induction l with
  | nil => simp
  | cons a l ih => simp [List.isPrefixOf_cons₂, ih]

theorem string_mk_data (s : String) : String.mk s.data = s := rfl

theorem trimLeading_append_self (p t : String) : trimLeading p (p ++ t) = t := by
  have hdata : (p ++ t).data = p.data ++ t.data := String.data_append p t
  simp [trimLeading, hdata, isPrefixOf_append_self, List.drop_left, string_mk_data]

/-- Parsing the placement key written by `StoreData` recovers the shard index. -/
theorem parseShardKey (i : Nat) :
    atoi (trimLeading "shard_" ("shard_" ++ natRepr i)) = some (Int.ofNat i) := by
  rw [trimLeading_append_self, atoi_natRepr]

/-! ### Concrete collaborator and store instances

Small executable instances satisfying the specification's collaborator
contracts, used to exercise the pipeline theorems on closed inputs. -/

/-- A shard-store state for the generic association-list backend: a map from
(object-id, shard-index, location) to the stored bytes, newest entry first. -/
abbrev StoreState := List ((String × Int × String) × Bytes)

/-- A generic in-memory `ShardStore` keyed by (object-id, shard-index,
location); `put` prepends (overwrite), `get` takes the newest entry. Its
`put`/`get` are inverses, as §4.6 requires. -/
def assocStore : ShardStoreOps StoreState :=
  ShardStoreOps.mk
    (fun st oid i b l => Except.ok (((oid, i, l), b) :: st))
    (fun st oid i l =>
      match st.find? (fun e => e.1 = (oid, i, l)) with
      | some e => Except.ok e.2
      | none => Except.error "shard not found")

/-- A concrete codec: a one-byte header, removed again on decompression. -/
def cCompress (b : Bytes) : Except String Bytes := Except.ok (0 :: b)

/-- Inverse of `cCompress`; fails on input it did not produce. -/
def cDecompress (b : Bytes) : Except String Bytes :=
  match b with
  | 0 :: rest => Except.ok rest
  | _ => Except.error "gzip: invalid header"

/-- A concrete authenticated cipher: prepends a key-dependent checksum; a
single modified byte breaks the checksum and decryption fails. -/
def cEncrypt (m k : Bytes) : Except String Bytes :=
  Except.ok (((m.sum + k.sum) % 256) :: m)

/-- Inverse of `cEncrypt`: validates the checksum. -/
def cDecrypt (c k : Bytes) : Except String Bytes :=
  match c with
  | chk :: m => if chk = (m.sum + k.sum) % 256 then Except.ok m
    else Except.error "cipher: message authentication failed"
  | [] => Except.error "cipher: message authentication failed"

/-- A concrete erasure coder with K = 1 data shard and M = 1 parity shard:
the parity shard mirrors the data shard, so any single missing shard is
tolerated (§4.3's contract at N = 2). -/
def cEncode (b : Bytes) : Except String (List Bytes) := Except.ok [b, b]

/-- Inverse of `cEncode`: takes the data shard when present, else the mirror
parity shard; with both slots empty reconstruction fails. Note that when the
data shard is present the parity slot is ignored entirely. -/
def cDecode (slots : List (Option Bytes)) : Except String Bytes :=
  match slots with
  | some s0 :: _ => Except.ok s0
  | none :: some s1 :: _ => Except.ok s1
  | _ => Except.error "reedsolomon: not enough shards"

/-- A concrete Merkle committer: the tree is the shard list itself. -/
def cBuild (shards : List Bytes) : Except String (List Bytes) := Except.ok shards

/-- A concrete proof generator for `cBuild` trees. -/
def cProof (tree : List Bytes) (shard : Bytes) : Except String String :=
  Except.ok ("pf_" ++ natRepr (tree.length + shard.length))

/-- The concrete collaborator bundle (K = 1, M = 1, N = 2). -/
def mirrorCollab : Collab (List Bytes) :=
  Collab.mk 1 1 cCompress cDecompress cEncrypt cDecrypt cEncode cDecode cBuild cProof

/-- A catalogue holding just the bucket `b1`. -/
def db0 : DB := DB.mk ["b1"] [] [] []

/-- A configuration with a concrete key. -/
def cfg0 : Config := Config.mk [7]

/-- A concrete RFC 3339 stamp (UTC zone). -/
def now0 : String := formatRFC3339 (GoTime.mk 2026 10 11 12 0 0 0)

/-- The pipeline errors that can occur after the shard-placement step of
`StoreData` (step 6): failures of proof generation, of `AddVersion`, and of
`AddObject`. -/
def afterPlacementErr : Err → Bool
  | Err.getProofFailed _ => true
  | Err.addVersionFailed _ => true
  | Err.addObjectFailed _ => true
  | _ => false

/-- A write with only one location configured while N = 2. -/
def c4run : Except Err StoreResult × DB × StoreState × List Event :=
  StoreData mirrorCollab db0 [5] "b1" "o1" "/tmp/a.txt" assocStore [] cfg0 ["l0"] "v1" now0

/-- A complete successful write of the payload `[1, 2, 3]`. -/
def c7run : Except Err StoreResult × DB × StoreState × List Event :=
  StoreData mirrorCollab db0 [1, 2, 3] "b1" "o1" "/tmp/greet.txt" assocStore [] cfg0
    ["l0", "l1"] "v1" now0

/-- The shard store of `c7run` with a byte of the (present) parity shard
`shard_1` altered — a bit flip in a present shard. -/
def c7tampered : StoreState :=
  c7run.2.2.1.map
    (fun e => if e.1 = ("o1", (1 : Int), "l1") then (e.1, 99 :: e.2.tail) else e)

/-- A collaborator bundle whose proof generator always fails (used to drive
`StoreData` into an error after the placement step). -/
def noProofCollab : Collab (List Bytes) :=
  Collab.mk 1 1 cCompress cDecompress cEncrypt cDecrypt cEncode cDecode cBuild
    (fun _ _ => Except.error "proof backend down")

/-- A write whose proof-generation step fails after all shards were placed. -/
def c3run : Except Err StoreResult × DB × StoreState × List Event :=
  StoreData noProofCollab db0 [1, 2, 3] "b1" "o1" "/tmp/greet.txt" assocStore [] cfg0
    ["l0", "l1"] "v1" now0

/-- A collaborator bundle whose cipher decrypts exactly one ciphertext (the
authentic one of the `[1, 2, 3]` write under the key `[7]`) — the symbolic
reading of an authenticated cipher for that single write. -/
def oracleCollab : Collab (List Bytes) :=
  Collab.mk 1 1 cCompress cDecompress cEncrypt
    (fun c k => if c = [13, 0, 1, 2, 3] ∧ k = [7] then Except.ok [0, 1, 2, 3]
      else Except.error "cipher: message authentication failed")
    cEncode cDecode cBuild cProof

/-- A local time an hour east of UTC (e.g. central Europe in winter). -/
def paris : GoTime := GoTime.mk 2026 10 11 12 0 0 60

/-- The `c7run` write executed on a machine whose local zone is `paris`. -/
def c8run : Except Err StoreResult × DB × StoreState × List Event :=
  StoreData mirrorCollab db0 [1, 2, 3] "b1" "o1" "/tmp/greet.txt" assocStore [] cfg0
    ["l0", "l1"] "v1" (formatRFC3339 paris)

/-- A store holding a shard under index 5 while N = 2. -/
def badStore : StoreState := [(("o", (5 : Int), "l"), [1])]

/-- A version record whose placement map has one malformed key (`shard_x`)
and whose entry `shard_1` points at a location holding nothing. -/
def c6md : VersionMetadata :=
  VersionMetadata.mk "b1" "o1" "v1" "greet.txt" "" "txt" now0
    [("shard_0", "l0"), ("shard_x", "l1"), ("shard_1", "l2")] []

/-- A catalogue holding the `c6md` record. -/
def c6db : DB := DB.mk ["b1"] [("o1", "b1", "greet.txt")] [(("o1", "v1"), (c6md, [9]))] []

/-- A shard store holding only shard 0 of the `c6md` record. -/
def c6store : StoreState := [(("o1", (0 : Int), "l0"), [13, 0, 1, 2, 3])]

/-- Decidable equality for `Except`, so that concrete pipeline runs can be
checked by evaluation. -/
instance {ε α : Type} [DecidableEq ε] [DecidableEq α] : DecidableEq (Except ε α) := fun a b =>
  match a, b with
  | Except.error x, Except.error y =>
    match decEq x y with
    | isTrue h => isTrue (h ▸ rfl)
    | isFalse h => isFalse (fun hc => h (Except.error.inj hc))
  | Except.error _, Except.ok _ => isFalse (fun hc => Except.noConfusion hc)
  | Except.ok _, Except.error _ => isFalse (fun hc => Except.noConfusion hc)
  | Except.ok x, Except.ok y =>
    match decEq x y with
    | isTrue h => isTrue (h ▸ rfl)
    | isFalse h => isFalse (fun hc => h (Except.ok.inj hc))

/-! ### Shard-placement loop lemmas -/

theorem range_map_shift {α : Type} (f : Nat → α) (n k : Nat) :
    (List.range (n + 1)).map (fun j => f (k + j))
      = f k :: (List.range n).map (fun j => f (k + 1 + j)) := by
  rw [List.range_succ_eq_map, List.map_cons, List.map_map]
  simp only [Nat.add_zero]
  congr 1
  apply List.map_congr_left
  intro a ha
  show f (k + (a + 1)) = f (k + 1 + a)
  congr 1
  omega

/-- Whenever the placement loop succeeds, its trace is exactly one successful
put per shard in index order, the placement pairs are `shard_<i> ↦
locations[i]`, and every used index is within `locations`. -/
theorem storeShardsLoop_ok_shape {σ : Type} (ops : ShardStoreOps σ) (oid : String)
    (locations : List String) :
    ∀ (shards : List Bytes) (idx : Nat) (st st' : σ)
      (locs : List (String × String)) (tr : List Event),
      storeShardsLoop ops oid locations shards idx st = (Except.ok (st', locs), tr) →
      tr = (List.range shards.length).map (fun j => Event.putCall (idx + j) true)
      ∧ locs = (List.range shards.length).map
          (fun j => ("shard_" ++ natRepr (idx + j), locations.getD (idx + j) ""))
      ∧ ∀ j < shards.length, idx + j < locations.length := by
  intro shards
  induction shards with
  | nil =>
    intro idx st st' locs tr h
    rw [storeShardsLoop] at h
    simp only [Prod.mk.injEq] at h
    obtain ⟨h1, h2⟩ := h
    rw [Except.ok.injEq, Prod.mk.injEq] at h1
    refine ⟨h2.symm, ?_, ?_⟩
    · simp [← h1.2]
    · intro j hj
      simp at hj
  | cons shard rest ih =>
    intro idx st st' locs tr h
    rw [storeShardsLoop] at h
    split at h
    · simp at h
    · rename_i hlt
      split at h
      · simp at h
      · rename_i st1 hput
        rcases hrec : storeShardsLoop ops oid locations rest (idx + 1) st1 with ⟨res, tr2⟩
        rw [hrec] at h
        cases res with
        | error e => simp [Except.map] at h
        | ok p =>
          simp only [Except.map, Prod.mk.injEq, Except.ok.injEq] at h
          obtain ⟨⟨hst, hlocs⟩, htr⟩ := h
          obtain ⟨ihtr, ihlocs, ihbound⟩ :=
            ih (idx + 1) st1 p.1 p.2 tr2 (by rw [hrec])
          refine ⟨?_, ?_, ?_⟩
          · rw [← htr, ihtr, List.length_cons,
              range_map_shift (fun j => Event.putCall j true) rest.length idx]
          · rw [← hlocs, ihlocs, List.length_cons,
              range_map_shift
                (fun j => ("shard_" ++ natRepr j, locations.getD j "")) rest.length idx]
          · intro j hj
            cases j with
            | zero => omega
            | succ j' =>
              have := ihbound j' (by simpa using hj)
              omega

/-- Every event the placement loop emits is a `putCall`. -/
theorem storeShardsLoop_events {σ : Type} (ops : ShardStoreOps σ) (oid : String)
    (locations : List String) :
    ∀ (shards : List Bytes) (idx : Nat) (st : σ) (e : Event),
      e ∈ (storeShardsLoop ops oid locations shards idx st).2 →
      ∃ i b, e = Event.putCall i b := by
  intro shards
  induction shards with
  | nil =>
    intro idx st e he
    simp [storeShardsLoop] at he
  | cons shard rest ih =>
    intro idx st e he
    rw [storeShardsLoop] at he
    split at he
    · simp at he
    · split at he
      · simp at he
        exact ⟨idx, false, he⟩
      · rename_i st1 hput
        simp only [List.mem_cons] at he
        rcases he with he | he
        · exact ⟨idx, true, he⟩
        · exact ih (idx + 1) st1 e he

/-- When the location list is shorter than the shard list and every put
succeeds, the placement loop stores shards `idx, …, |locations| - 1` and then
fails with the in-loop index-out-of-range error at `idx = |locations|`. -/
theorem storeShardsLoop_overflow {σ : Type} (ops : ShardStoreOps σ) (oid : String)
    (locations : List String)
    (hput : ∀ (st : σ) (i : Int) (shard : Bytes) (loc : String),
      ∃ st', ops.storeShard st oid i shard loc = Except.ok st') :
    ∀ (shards : List Bytes) (idx : Nat) (st : σ),
      locations.length < idx + shards.length → idx ≤ locations.length →
      (storeShardsLoop ops oid locations shards idx st).1
        = Except.error (Err.indexOutOfRangeLocations locations.length locations.length)
      ∧ (storeShardsLoop ops oid locations shards idx st).2
        = (List.range (locations.length - idx)).map (fun j => Event.putCall (idx + j) true) := by
  intro shards
  induction shards with
  | nil =>
    intro idx st hover hle
    simp at hover
    omega
  | cons shard rest ih =>
    intro idx st hover hle
    by_cases hidx : idx ≥ locations.length
    · have hidx' : idx = locations.length := by omega
      rw [storeShardsLoop, if_pos hidx, hidx']
      constructor
      · rfl
      · simp [hidx']
    · obtain ⟨st1, hp1⟩ := hput st (Int.ofNat idx) shard (locations.getD idx "")
      have hrec := ih (idx + 1) st1 (by simp at hover ⊢; omega) (by omega)
      rcases hq : storeShardsLoop ops oid locations rest (idx + 1) st1 with ⟨res, tr2⟩
      rw [hq] at hrec
      simp only at hrec
      have hstep : storeShardsLoop ops oid locations (shard :: rest) idx st
          = (Except.map (fun p => (p.1, ("shard_" ++ natRepr idx, locations.getD idx "") :: p.2)) res,
             Event.putCall idx true :: tr2) := by
        rw [storeShardsLoop, if_neg hidx, hp1]
        show (Except.map (fun p => (p.1, ("shard_" ++ natRepr idx, locations.getD idx "") :: p.2))
            (storeShardsLoop ops oid locations rest (idx + 1) st1).1,
          Event.putCall idx true :: (storeShardsLoop ops oid locations rest (idx + 1) st1).2) = _
        rw [hq]
      rw [hstep]
      constructor
      · show Except.map _ res = _
        rw [hrec.1]
        rfl
      · show Event.putCall idx true :: tr2 = _
        rw [hrec.2]
        have hsub : locations.length - idx = (locations.length - (idx + 1)) + 1 := by omega
        rw [hsub, range_map_shift (fun j => Event.putCall j true)
          (locations.length - (idx + 1)) idx]

/-- With a shard store whose puts succeed and whose `put`/`get` are inverses
(§4.6), the placement loop succeeds, afterwards each stored shard is
retrievable at its index and location, and retrievals at untouched keys are
unchanged. -/
theorem storeShardsLoop_spec {σ : Type} (ops : ShardStoreOps σ) (oid : String)
    (locations : List String)
    (hput : ∀ (st : σ) (i : Int) (shard : Bytes) (loc : String),
      ∃ st', ops.storeShard st oid i shard loc = Except.ok st')
    (hget : ∀ (st st' : σ) (oid2 : String) (i : Int) (shard : Bytes) (loc : String),
      ops.storeShard st oid2 i shard loc = Except.ok st' →
      ops.retrieveShard st' oid2 i loc = Except.ok shard)
    (hframe : ∀ (st st' : σ) (oid2 : String) (i : Int) (shard : Bytes) (loc : String)
      (oid3 : String) (i3 : Int) (l3 : String),
      ops.storeShard st oid2 i shard loc = Except.ok st' →
      ¬(oid3 = oid2 ∧ i3 = i ∧ l3 = loc) →
      ops.retrieveShard st' oid3 i3 l3 = ops.retrieveShard st oid3 i3 l3) :
    ∀ (shards : List Bytes) (idx : Nat) (st : σ),
      idx + shards.length ≤ locations.length →
      ∃ st' locs tr,
        storeShardsLoop ops oid locations shards idx st = (Except.ok (st', locs), tr)
        ∧ (∀ j, j < shards.length →
            ops.retrieveShard st' oid (Int.ofNat (idx + j)) (locations.getD (idx + j) "")
              = Except.ok (shards.getD j []))
        ∧ (∀ (oid3 : String) (i3 : Int) (l3 : String),
            (∀ j, j < shards.length →
              ¬(oid3 = oid ∧ i3 = Int.ofNat (idx + j) ∧ l3 = locations.getD (idx + j) "")) →
            ops.retrieveShard st' oid3 i3 l3 = ops.retrieveShard st oid3 i3 l3) := by
  intro shards
  induction shards with
  | nil =>
    intro idx st _
    refine ⟨st, [], [], rfl, ?_, ?_⟩
    · intro j hj
      simp at hj
    · intro oid3 i3 l3 _
      rfl
  | cons shard rest ih =>
    intro idx st hbound
    have hidx : ¬ idx ≥ locations.length := by simp at hbound ⊢; omega
    obtain ⟨st1, hp1⟩ := hput st (Int.ofNat idx) shard (locations.getD idx "")
    obtain ⟨st', locsR, trR, heq, hretr, hfr⟩ :=
      ih (idx + 1) st1 (by simp at hbound ⊢; omega)
    refine ⟨st', ("shard_" ++ natRepr idx, locations.getD idx "") :: locsR,
      Event.putCall idx true :: trR, ?_, ?_, ?_⟩
    · rw [storeShardsLoop, if_neg hidx, hp1]
      show (Except.map (fun p => (p.1, ("shard_" ++ natRepr idx, locations.getD idx "") :: p.2))
          (storeShardsLoop ops oid locations rest (idx + 1) st1).1,
        Event.putCall idx true :: (storeShardsLoop ops oid locations rest (idx + 1) st1).2) = _
      rw [heq]
      rfl
    · intro j hj
      cases j with
      | zero =>
        have hkeys : ∀ j, j < rest.length →
            ¬(oid = oid ∧ Int.ofNat idx = Int.ofNat (idx + 1 + j)
              ∧ locations.getD idx "" = locations.getD (idx + 1 + j) "") := by
          intro j hj hcontra
          have := Int.ofNat.inj hcontra.2.1
          omega
        have h1 := hfr oid (Int.ofNat idx) (locations.getD idx "") hkeys
        have h2 := hget st st1 oid (Int.ofNat idx) shard (locations.getD idx "") hp1
        simpa using h1.trans h2
      | succ j' =>
        have hj' : j' < rest.length := by simpa using hj
        have := hretr j' hj'
        have harith : idx + 1 + j' = idx + (j' + 1) := by omega
        rw [harith] at this
        simpa using this
    · intro oid3 i3 l3 havoid
      have h1 : ∀ j, j < rest.length →
          ¬(oid3 = oid ∧ i3 = Int.ofNat (idx + 1 + j)
            ∧ l3 = locations.getD (idx + 1 + j) "") := by
        intro j hj
        have := havoid (j + 1) (by simp; omega)
        have harith : idx + (j + 1) = idx + 1 + j := by omega
        rw [harith] at this
        exact this
      have h0 := havoid 0 (by simp)
      simp only [Nat.add_zero] at h0
      rw [hfr oid3 i3 l3 h1]
      exact hframe st st1 oid (Int.ofNat idx) shard (locations.getD idx "") oid3 i3 l3 hp1 h0

/-- The proof-generation loop returns one proof per shard. -/
theorem proofsLoop_ok_length {τ : Type} (gp : τ → Bytes → Except String String) (tree : τ) :
    ∀ (shards : List Bytes) (ps : List String),
      proofsLoop gp tree shards = Except.ok ps → ps.length = shards.length := by
  intro shards
  induction shards with
  | nil =>
    intro ps h
    simp [proofsLoop] at h
    simp [← h]
  | cons shard rest ih =>
    intro ps h
    rw [proofsLoop] at h
    split at h
    · simp at h
    · split at h
      · simp at h
      · rename_i ps' hps'
        simp at h
        simp [← h, ih ps' hps']

/-- When the proof generator succeeds on every shard, the proof loop succeeds. -/
theorem proofsLoop_ok_of_all {τ : Type} (gp : τ → Bytes → Except String String) (tree : τ) :
    ∀ (shards : List Bytes), (∀ sh ∈ shards, ∃ pf, gp tree sh = Except.ok pf) →
      ∃ ps, proofsLoop gp tree shards = Except.ok ps := by
  intro shards
  induction shards with
  | nil => exact fun _ => ⟨[], rfl⟩
  | cons shard rest ih =>
    intro hall
    obtain ⟨pf, hpf⟩ := hall shard (by simp)
    obtain ⟨ps, hps⟩ := ih (fun sh hsh => hall sh (by simp [hsh]))
    refine ⟨pf :: ps, ?_⟩
    rw [proofsLoop, hpf, hps]

/-! ### Gather-loop lemmas -/

/-- As long as every parsable placement key is in range, the gather loop never
panics: it returns slots of unchanged size and adds one missing count per
unparsable key or failed fetch. -/
theorem gatherShards_count {σ : Type} (ops : ShardStoreOps σ) (st : σ) (oid : String) :
    ∀ (keys : List (String × String)) (slots : List (Option Bytes)) (m : Nat),
      (∀ kv ∈ keys, ∀ i : Int, atoi (trimLeading "shard_" kv.1) = some i →
        0 ≤ i ∧ i.toNat < slots.length) →
      ∃ slots', gatherShards ops st oid keys slots m
          = Except.ok (slots', m + countMissing ops st oid keys)
        ∧ slots'.length = slots.length := by
  intro keys
  induction keys with
  | nil =>
    intro slots m _
    exact ⟨slots, by simp [gatherShards, countMissing], rfl⟩
  | cons kv rest ih =>
    intro slots m hkeys
    obtain ⟨k, loc⟩ := kv
    rcases hparse : atoi (trimLeading "shard_" k) with _ | i
    · obtain ⟨slots', heq, hlen⟩ := ih slots (m + 1)
        (fun kv2 h2 => hkeys kv2 (by simp [h2]))
      refine ⟨slots', ?_, hlen⟩
      simp only [gatherShards, hparse, countMissing]
      rw [← Nat.add_assoc]
      exact heq
    · rcases hre : ops.retrieveShard st oid i loc with msg | shard
      · obtain ⟨slots', heq, hlen⟩ := ih slots (m + 1)
          (fun kv2 h2 => hkeys kv2 (by simp [h2]))
        refine ⟨slots', ?_, hlen⟩
        simp only [gatherShards, hparse, hre, countMissing]
        rw [← Nat.add_assoc]
        exact heq
      · have hcond : 0 ≤ i ∧ i.toNat < slots.length :=
          hkeys (k, loc) (by simp) i hparse
        obtain ⟨slots', heq, hlen⟩ := ih (slots.set i.toNat (some shard)) m
          (fun kv2 h2 i2 hi2 => by
            have := hkeys kv2 (by simp [h2]) i2 hi2
            simpa [List.length_set] using this)
        refine ⟨slots', ?_, by simpa [List.length_set] using hlen⟩
        simp only [gatherShards, hparse, hre, countMissing, if_pos hcond]
        rw [Nat.zero_add]
        exact heq

theorem set_append_length {α : Type} :
    ∀ (pre : List α) (x : α) (t : List α) (v : α),
      (pre ++ x :: t).set pre.length v = pre ++ v :: t := by
  intro pre
  induction pre with
  | nil => intro x t v; rfl
  | cons p pre ih => intro x t v; simp [List.set, ih]

/-- Gathering over the exact placement keys `shard_k … shard_(k+n-1)` written
by the write path, with every fetch succeeding, fills the `n` empty slots
after a filled prefix of length `k` and counts nothing as missing. -/
theorem gatherShards_exact {σ : Type} (ops : ShardStoreOps σ) (st : σ) (oid : String)
    (Lf : Nat → String) (g : Nat → Bytes) :
    ∀ (n k : Nat) (pre : List (Option Bytes)) (m : Nat),
      pre.length = k →
      (∀ j, j < n →
        ops.retrieveShard st oid (Int.ofNat (k + j)) (Lf (k + j)) = Except.ok (g (k + j))) →
      gatherShards ops st oid
          ((List.range n).map (fun j => ("shard_" ++ natRepr (k + j), Lf (k + j))))
          (pre ++ List.replicate n none) m
        = Except.ok (pre ++ (List.range n).map (fun j => some (g (k + j))), m) := by
  intro n
  induction n with
  | zero =>
    intro k pre m _ _
    simp [gatherShards]
  | succ n ih =>
    intro k pre m hpre hretr
    rw [range_map_shift (fun j => ("shard_" ++ natRepr j, Lf j)) n k]
    rw [range_map_shift (fun j => some (g j)) n k]
    have hr0 : ops.retrieveShard st oid (Int.ofNat k) (Lf k) = Except.ok (g k) := by
      have := hretr 0 (by omega)
      simpa using this
    have hlen : (pre ++ List.replicate (n + 1) none).length = k + (n + 1) := by
      simp [hpre]
    have hcond : (0 : Int) ≤ Int.ofNat k ∧ (Int.ofNat k).toNat
        < (pre ++ List.replicate (n + 1) none).length := by
      constructor
      · exact Int.ofNat_nonneg k
      · show k < (pre ++ List.replicate (n + 1) none).length
        rw [hlen]
        omega
    have hset : (pre ++ List.replicate (n + 1) none).set (Int.ofNat k).toNat (some (g k))
        = (pre ++ [some (g k)]) ++ List.replicate n none := by
      rw [List.replicate_succ]
      have : (Int.ofNat k).toNat = pre.length := by simp [hpre]
      rw [this, set_append_length]
      simp
    simp only [gatherShards, parseShardKey k, hr0, if_pos hcond, hset]
    have hIH := ih (k + 1) (pre ++ [some (g k)]) m (by simp [hpre])
      (fun j hj => by
        have := hretr (j + 1) (by omega)
        have harith : k + (j + 1) = k + 1 + j := by omega
        rw [harith] at this
        exact this)
    rw [hIH]
    simp

/-- A list with a single occurrence of `a` decomposes uniquely around it. -/
theorem append_cons_eq_unique {α : Type} {a : α} :
    ∀ (l1 l2 pre post : List α),
      l1 ++ a :: l2 = pre ++ a :: post → a ∉ l1 → a ∉ l2 → pre = l1 ∧ post = l2 := by
  intro l1
  induction l1 with
  | nil =>
    intro l2 pre post h ha1 ha2
    cases pre with
    | nil =>
      simp at h
      exact ⟨rfl, h.symm⟩
    | cons p pre =>
      simp at h
      obtain ⟨hp, htail⟩ := h
      exfalso
      apply ha2
      rw [htail]
      simp [hp]
  | cons x l1 ihl =>
    intro l2 pre post h ha1 ha2
    cases pre with
    | nil =>
      simp at h
      exact absurd (by simp [h.1]) ha1
    | cons p pre =>
      simp at h
      obtain ⟨hp, htail⟩ := h
      obtain ⟨h1, h2⟩ := ihl l2 pre post htail (fun hm => ha1 (by simp [hm])) ha2
      exact ⟨by simp [hp, h1], h2⟩

theorem range_map_getD {α β : Type} (f : α → β) (d : α) :
    ∀ l : List α,
      (List.range l.length).map (fun j => f (l.getD j d)) = l.map f := by
  intro l
  induction l with
  | nil => rfl
  | cons x xs ih =>
    rw [List.length_cons, List.range_succ_eq_map, List.map_cons, List.map_map]
    simp only [List.getD_cons_zero, List.map_cons, List.cons.injEq]
    refine ⟨trivial, ?_⟩
    rw [← ih]
    apply List.map_congr_left
    intro a ha
    show f ((x :: xs).getD (a + 1) d) = f (xs.getD a d)
    rw [List.getD_cons_succ]

/-! ### The association-list shard store satisfies the §4.6 contract -/

theorem assocStore_put_ok (st : StoreState) (oid : String) (i : Int) (b : Bytes)
    (l : String) : ∃ st', assocStore.storeShard st oid i b l = Except.ok st' :=
  ⟨((oid, i, l), b) :: st, rfl⟩

theorem assocStore_get_put (st st' : StoreState) (oid : String) (i : Int) (b : Bytes)
    (l : String) (h : assocStore.storeShard st oid i b l = Except.ok st') :
    assocStore.retrieveShard st' oid i l = Except.ok b := by
  have hst : st' = ((oid, i, l), b) :: st := by
    simp [assocStore] at h
    exact h.symm
  subst hst
  simp [assocStore, List.find?]

theorem assocStore_frame (st st' : StoreState) (oid2 : String) (i : Int) (b : Bytes)
    (l : String) (oid3 : String) (i3 : Int) (l3 : String)
    (h : assocStore.storeShard st oid2 i b l = Except.ok st')
    (hne : ¬(oid3 = oid2 ∧ i3 = i ∧ l3 = l)) :
    assocStore.retrieveShard st' oid3 i3 l3 = assocStore.retrieveShard st oid3 i3 l3 := by
  have hst : st' = ((oid2, i, l), b) :: st := by
    simp [assocStore] at h
    exact h.symm
  subst hst
  have hkey : ¬(((oid2, i, l), b) : (String × Int × String) × Bytes).1 = (oid3, i3, l3) := by
    intro hcontra
    apply hne
    rw [Prod.mk.injEq, Prod.mk.injEq] at hcontra
    exact ⟨hcontra.1.symm, hcontra.2.1.symm, hcontra.2.2.symm⟩
  show (match List.find? (fun e => e.1 = (oid3, i3, l3)) (((oid2, i, l), b) :: st) with
    | some e => Except.ok e.2
    | none => Except.error "shard not found") = _
  rw [List.find?_cons_of_neg _ (by simpa using hkey)]
  rfl

/-! ### Full evaluation of a successful write -/

/-- When the write-path collaborator calls succeed, the bucket exists, the
version id is fresh and there are enough locations, `StoreData` commits and
returns exactly the expected result, catalogue state, and trace; moreover each
shard is afterwards retrievable from the final store state at its index and
location. -/
theorem StoreData_ok_spec {σ τ : Type} (collab : Collab τ)
    (db : DB) (data : Bytes) (bucketID objectID filePath : String)
    (ops : ShardStoreOps σ) (st : σ) (cfg : Config) (locations : List String)
    (versionID nowStr : String) (comp ct : Bytes) (shards : List Bytes) (tree : τ)
    (hbucket : bucketExistsQuery db bucketID = true)
    (hfresh : getVersion db objectID versionID = none)
    (hcompress : collab.compress data = Except.ok comp)
    (hencrypt : collab.encrypt comp cfg.EncryptionKey = Except.ok ct)
    (hencode : collab.encode ct = Except.ok shards)
    (hbound : shards.length ≤ locations.length)
    (htree : collab.buildMerkleTree shards = Except.ok tree)
    (hproof : ∀ sh ∈ shards, ∃ pf, collab.getProof tree sh = Except.ok pf)
    (hput : ∀ (s : σ) (i : Int) (shard : Bytes) (loc : String),
      ∃ s', ops.storeShard s objectID i shard loc = Except.ok s')
    (hget : ∀ (s s' : σ) (oid2 : String) (i : Int) (shard : Bytes) (loc : String),
      ops.storeShard s oid2 i shard loc = Except.ok s' →
      ops.retrieveShard s' oid2 i loc = Except.ok shard)
    (hframe : ∀ (s s' : σ) (oid2 : String) (i : Int) (shard : Bytes) (loc : String)
      (oid3 : String) (i3 : Int) (l3 : String),
      ops.storeShard s oid2 i shard loc = Except.ok s' →
      ¬(oid3 = oid2 ∧ i3 = i ∧ l3 = loc) →
      ops.retrieveShard s' oid3 i3 l3 = ops.retrieveShard s oid3 i3 l3) :
    ∃ (st' : σ) (ps : List String),
      ps.length = shards.length
      ∧ StoreData collab db data bucketID objectID filePath ops st cfg locations
          versionID nowStr
        = (Except.ok (StoreResult.mk versionID
            ((List.range shards.length).map
              (fun j => ("shard_" ++ natRepr j, locations.getD j ""))) ps),
          DB.mk db.buckets
            ((objectID, bucketID, filepathBase filePath)
              :: db.objects.filter (fun e => e.1 ≠ objectID))
            (((objectID, versionID),
              (VersionMetadata.mk bucketID objectID versionID (filepathBase filePath) ""
                (trimLeading "." (filepathExt filePath)) nowStr
                ((List.range shards.length).map
                  (fun j => ("shard_" ++ natRepr j, locations.getD j "")))
                (convertSliceToMap ps), ct)) :: db.versions)
            ((objectID, versionID) :: db.rootVersions),
          st',
          (List.range shards.length).map (fun j => Event.putCall j true)
            ++ [Event.addVersionCall, Event.addObjectCall])
      ∧ (∀ j, j < shards.length →
          ops.retrieveShard st' objectID (Int.ofNat j) (locations.getD j "")
            = Except.ok (shards.getD j [])) := by
  obtain ⟨st', locs, tr, heqLoop, hretr, _⟩ :=
    storeShardsLoop_spec ops objectID locations hput hget hframe shards 0 st (by omega)
  obtain ⟨htr, hlocs, _⟩ :=
    storeShardsLoop_ok_shape ops objectID locations shards 0 st st' locs tr heqLoop
  obtain ⟨ps, hps⟩ := proofsLoop_ok_of_all collab.getProof tree shards hproof
  refine ⟨st', ps, proofsLoop_ok_length collab.getProof tree shards ps hps, ?_, ?_⟩
  · simp only [Nat.zero_add] at htr hlocs
    subst htr hlocs
    simp only [StoreData, hbucket, not_true, if_false, hcompress, hencrypt, hencode,
      htree, heqLoop, hps, addVersion, hfresh, addObject, getRootVersion,
      Option.isSome_none, Bool.false_eq_true, Nat.zero_add]
  · intro j hj
    have := hretr j hj
    simpa using this

/-! ### Claim theorems -/

/-- **C1.** For every payload, existing bucket, object, fresh version id and
location list with `|locations| = N`, under the collaborator contracts (the
codec, cipher and erasure coder invert their encodings, Merkle proof
generation succeeds, and the shard store's put/get are inverses),
`RetrieveData` invoked with the version id returned by a successful
`StoreData(p)` returns exactly the bytes `p`, and returns as filename the last
path component of the file path given to `StoreData`. -/
theorem storeData_retrieveData_roundtrip {σ τ : Type} (collab : Collab τ)
    (db : DB) (data : Bytes) (bucketID objectID filePath : String)
    (ops : ShardStoreOps σ) (st : σ) (cfg : Config) (locations : List String)
    (versionID nowStr : String) (comp ct : Bytes) (shards : List Bytes) (tree : τ)
    (hbucket : bucketExistsQuery db bucketID = true)
    (hfresh : getVersion db objectID versionID = none)
    (hcompress : collab.compress data = Except.ok comp)
    (hencrypt : collab.encrypt comp cfg.EncryptionKey = Except.ok ct)
    (hencode : collab.encode ct = Except.ok shards)
    (hshards : shards.length = collab.dataShards + collab.parityShards)
    (hlocs : locations.length = collab.dataShards + collab.parityShards)
    (htree : collab.buildMerkleTree shards = Except.ok tree)
    (hproof : ∀ sh ∈ shards, ∃ pf, collab.getProof tree sh = Except.ok pf)
    (hdecode : collab.decode (shards.map some) = Except.ok ct)
    (hdecrypt : collab.decrypt ct cfg.EncryptionKey = Except.ok comp)
    (hdecompress : collab.decompress comp = Except.ok data)
    (hput : ∀ (s : σ) (i : Int) (shard : Bytes) (loc : String),
      ∃ s', ops.storeShard s objectID i shard loc = Except.ok s')
    (hget : ∀ (s s' : σ) (oid2 : String) (i : Int) (shard : Bytes) (loc : String),
      ops.storeShard s oid2 i shard loc = Except.ok s' →
      ops.retrieveShard s' oid2 i loc = Except.ok shard)
    (hframe : ∀ (s s' : σ) (oid2 : String) (i : Int) (shard : Bytes) (loc : String)
      (oid3 : String) (i3 : Int) (l3 : String),
      ops.storeShard s oid2 i shard loc = Except.ok s' →
      ¬(oid3 = oid2 ∧ i3 = i ∧ l3 = loc) →
      ops.retrieveShard s' oid3 i3 l3 = ops.retrieveShard s oid3 i3 l3) :
    ∃ (res : StoreResult) (db2 : DB) (st2 : σ) (tr : List Event),
      StoreData collab db data bucketID objectID filePath ops st cfg locations
          versionID nowStr = (Except.ok res, db2, st2, tr)
      ∧ res.versionID = versionID
      ∧ RetrieveData collab db2 bucketID objectID res.versionID ops st2 cfg
        = Except.ok (data, filepathBase filePath) := by
  obtain ⟨st', ps, hpslen, hSD, hretr⟩ := StoreData_ok_spec collab db data bucketID objectID
    filePath ops st cfg locations versionID nowStr comp ct shards tree hbucket hfresh
    hcompress hencrypt hencode (by omega) htree hproof hput hget hframe
  refine ⟨_, _, _, _, hSD, rfl, ?_⟩
  have hG := gatherShards_exact ops st' objectID (fun j => locations.getD j "")
    (fun j => shards.getD j []) shards.length 0 [] 0 rfl
    (fun j hj => by simpa using hretr j hj)
  simp only [Nat.zero_add, List.nil_append] at hG
  rw [range_map_getD some ([] : Bytes) shards] at hG
  simp only [RetrieveData, getVersion, List.find?, decide_eq_true_eq, decide_True,
    Option.map_some']
  rw [← hshards]
  rw [hG]
  simp only [Nat.not_lt_zero, if_false, hdecode, getEncryptionKey, hdecrypt, hdecompress]

/-- Every `StoreData` execution falls into one of two cases: either
`AddVersion` is never invoked (and any failed put implies an error result), or
the trace is exactly `N` successful puts followed by the `AddVersion`
invocation, with no failed put anywhere. -/
theorem StoreData_trace_dichotomy {σ τ : Type} (collab : Collab τ) (db : DB) (data : Bytes)
    (bucketID objectID filePath : String) (ops : ShardStoreOps σ) (st : σ) (cfg : Config)
    (locations : List String) (versionID nowStr : String)
    (hN : ∀ b ss, collab.encode b = Except.ok ss →
      ss.length = collab.dataShards + collab.parityShards) :
    (Event.addVersionCall ∉
        (StoreData collab db data bucketID objectID filePath ops st cfg locations
          versionID nowStr).2.2.2
      ∧ ∀ i, Event.putCall i false ∈
          (StoreData collab db data bucketID objectID filePath ops st cfg locations
            versionID nowStr).2.2.2 →
          ∃ er, (StoreData collab db data bucketID objectID filePath ops st cfg locations
            versionID nowStr).1 = Except.error er)
    ∨ (∃ tail,
        (StoreData collab db data bucketID objectID filePath ops st cfg locations
          versionID nowStr).2.2.2
          = (List.range (collab.dataShards + collab.parityShards)).map
              (fun i => Event.putCall i true) ++ Event.addVersionCall :: tail
        ∧ Event.addVersionCall ∉ tail
        ∧ ∀ i, Event.putCall i false ∉
            (StoreData collab db data bucketID objectID filePath ops st cfg locations
              versionID nowStr).2.2.2) := by
  by_cases hb : bucketExistsQuery db bucketID = true
  case neg =>
    left
    simp only [StoreData, if_pos hb]
    constructor
    · simp
    · intro i hi
      simp at hi
  case pos =>
    simp only [StoreData, hb, not_true, if_false]
    cases hc : collab.compress data with
    | error msg =>
      left
      simp only [hc]
      constructor
      · simp
      · intro i hi
        simp at hi
    | ok comp =>
      simp only [hc]
      cases he : collab.encrypt comp cfg.EncryptionKey with
      | error msg =>
        left
        simp only [he]
        constructor
        · simp
        · intro i hi
          simp at hi
      | ok ct =>
        simp only [he]
        cases hs : collab.encode ct with
        | error msg =>
          left
          simp only [hs]
          constructor
          · simp
          · intro i hi
            simp at hi
        | ok shards =>
          simp only [hs]
          cases ht : collab.buildMerkleTree shards with
          | error msg =>
            left
            simp only [ht]
            constructor
            · simp
            · intro i hi
              simp at hi
          | ok tree =>
            simp only [ht]
            rcases hloop : storeShardsLoop ops objectID locations shards 0 st with ⟨res, tr⟩
            cases res with
            | error e =>
              left
              constructor
              · intro hmem
                obtain ⟨i, b, hib⟩ := storeShardsLoop_events ops objectID locations shards 0 st
                  Event.addVersionCall (by rw [hloop]; exact hmem)
                simp at hib
              · intro i _
                exact ⟨e, rfl⟩
            | ok p =>
              obtain ⟨st', locs⟩ := p
              obtain ⟨htr, _, _⟩ :=
                storeShardsLoop_ok_shape ops objectID locations shards 0 st st' locs tr hloop
              simp only [Nat.zero_add] at htr
              have hlen : shards.length = collab.dataShards + collab.parityShards :=
                hN ct shards hs
              have hnof : ∀ i, Event.putCall i false ∉ tr := by
                intro i hmem
                rw [htr] at hmem
                simp at hmem
              cases hp : proofsLoop collab.getProof tree shards with
              | error e =>
                left
                simp only [hp]
                constructor
                · intro hmem
                  rw [htr] at hmem
                  simp at hmem
                · intro i hi
                  exact ⟨e, rfl⟩
              | ok ps =>
                simp only [hp]
                by_cases hv : (getVersion db objectID versionID).isSome = true
                · simp only [addVersion]
                  rw [if_pos hv]
                  right
                  refine ⟨[], ?_, by simp, ?_⟩
                  · rw [htr, hlen]
                  · intro i hmem
                    rw [List.mem_append] at hmem
                    rcases hmem with hmem | hmem
                    · exact hnof i hmem
                    · simp at hmem
                · simp only [addVersion]
                  rw [if_neg hv]
                  simp only [addObject]
                  right
                  refine ⟨[Event.addObjectCall], ?_, by simp, ?_⟩
                  · rw [htr, hlen]
                  · intro i hmem
                    rw [List.mem_append] at hmem
                    rcases hmem with hmem | hmem
                    · exact hnof i hmem
                    · simp at hmem

/-- Instantiation of the round-trip theorem on a concrete write and read of
the payload `[1, 2, 3]`. -/
theorem storeData_retrieveData_roundtrip_witness :
    ∃ (res : StoreResult) (db2 : DB) (st2 : StoreState) (tr : List Event),
      StoreData mirrorCollab db0 [1, 2, 3] "b1" "o1" "/tmp/greet.txt" assocStore [] cfg0
          ["l0", "l1"] "v1" now0 = (Except.ok res, db2, st2, tr)
      ∧ res.versionID = "v1"
      ∧ RetrieveData mirrorCollab db2 "b1" "o1" res.versionID assocStore st2 cfg0
        = Except.ok ([1, 2, 3], filepathBase "/tmp/greet.txt") :=
  storeData_retrieveData_roundtrip mirrorCollab db0 [1, 2, 3] "b1" "o1" "/tmp/greet.txt"
    assocStore [] cfg0 ["l0", "l1"] "v1" now0 [0, 1, 2, 3] [13, 0, 1, 2, 3]
    [[13, 0, 1, 2, 3], [13, 0, 1, 2, 3]] [[13, 0, 1, 2, 3], [13, 0, 1, 2, 3]]
    rfl rfl rfl rfl rfl rfl rfl rfl (fun sh _ => ⟨_, rfl⟩) rfl rfl rfl
    (fun s i b l => assocStore_put_ok s "o1" i b l)
    (fun s s' oid2 i b l h => assocStore_get_put s s' oid2 i b l h)
    (fun s s' oid2 i b l oid3 i3 l3 h hne => assocStore_frame s s' oid2 i b l oid3 i3 l3 h hne)

/-- **C2.** The metadata commit (`AddVersion`) is invoked only after all
`N = K + M` `ShardStore.StoreShard` calls have returned success: any
decomposition of the trace at the `AddVersion` invocation has exactly the `N`
successful puts in front of it; and if any shard put fails, `StoreData`
returns an error without invoking `AddVersion`, so no version record whose
shards were not all written can become observable. -/
theorem addVersion_after_all_puts {σ τ : Type} (collab : Collab τ) (db : DB) (data : Bytes)
    (bucketID objectID filePath : String) (ops : ShardStoreOps σ) (st : σ) (cfg : Config)
    (locations : List String) (versionID nowStr : String)
    (hN : ∀ b ss, collab.encode b = Except.ok ss →
      ss.length = collab.dataShards + collab.parityShards) :
    (∀ pre post,
      (StoreData collab db data bucketID objectID filePath ops st cfg locations
        versionID nowStr).2.2.2 = pre ++ Event.addVersionCall :: post →
      pre = (List.range (collab.dataShards + collab.parityShards)).map
        (fun i => Event.putCall i true))
    ∧ (∀ i, Event.putCall i false ∈
        (StoreData collab db data bucketID objectID filePath ops st cfg locations
          versionID nowStr).2.2.2 →
        (∃ er, (StoreData collab db data bucketID objectID filePath ops st cfg locations
          versionID nowStr).1 = Except.error er)
        ∧ Event.addVersionCall ∉
            (StoreData collab db data bucketID objectID filePath ops st cfg locations
              versionID nowStr).2.2.2) := by
  rcases StoreData_trace_dichotomy collab db data bucketID objectID filePath ops st cfg
      locations versionID nowStr hN with ⟨hnotin, himp⟩ | ⟨tail, htr, hnotail, hnofalse⟩
  · constructor
    · intro pre post heq
      exfalso
      apply hnotin
      rw [heq]
      simp
    · intro i hi
      exact ⟨himp i hi, hnotin⟩
  · constructor
    · intro pre post heq
      rw [htr] at heq
      have hnotin1 : Event.addVersionCall ∉
          (List.range (collab.dataShards + collab.parityShards)).map
            (fun i => Event.putCall i true) := by
        intro hmem
        simp at hmem
      exact (append_cons_eq_unique _ tail pre post heq hnotin1 hnotail).1
    · intro i hi
      exact absurd hi (hnofalse i)

/-- Instantiation of the commit-ordering theorem on a concrete write: the two
successful puts are exactly the events preceding the `AddVersion` call. -/
theorem addVersion_after_all_puts_witness :
    [Event.putCall 0 true, Event.putCall 1 true]
      = (List.range (mirrorCollab.dataShards + mirrorCollab.parityShards)).map
          (fun i => Event.putCall i true) :=
  (addVersion_after_all_puts mirrorCollab db0 [1, 2, 3] "b1" "o1" "/tmp/greet.txt"
    assocStore [] cfg0 ["l0", "l1"] "v1" now0
    (fun b ss h => by cases h; rfl)).1
    [Event.putCall 0 true, Event.putCall 1 true] [Event.addObjectCall] (by decide)

/-- **C3.** (spec-modelled: the metadata catalogue of pkg/bucket is modelled
from §4.7.) If `StoreData` returns an error at a step after shard placement
(proof generation, `AddVersion` or `AddObject`) and the generated version id
is fresh, then no version record with that version id is observable via
get-version in the resulting catalogue state. -/
theorem storeData_error_no_version_record {σ τ : Type} (collab : Collab τ) (db : DB)
    (data : Bytes) (bucketID objectID filePath : String) (ops : ShardStoreOps σ) (st : σ)
    (cfg : Config) (locations : List String) (versionID nowStr : String) (e : Err)
    (hfresh : getVersion db objectID versionID = none)
    (hafter : afterPlacementErr e = true)
    (herr : (StoreData collab db data bucketID objectID filePath ops st cfg locations
      versionID nowStr).1 = Except.error e) :
    getVersion (StoreData collab db data bucketID objectID filePath ops st cfg locations
      versionID nowStr).2.1 objectID versionID = none := by
  by_cases hb : bucketExistsQuery db bucketID = true
  case neg =>
    simp only [StoreData, if_pos hb]
    exact hfresh
  case pos =>
    simp only [StoreData, hb, not_true, if_false] at herr ⊢
    cases hc : collab.compress data with
    | error msg =>
      simp only [hc]
      exact hfresh
    | ok comp =>
      simp only [hc] at herr ⊢
      cases he : collab.encrypt comp cfg.EncryptionKey with
      | error msg =>
        simp only [he]
        exact hfresh
      | ok ct =>
        simp only [he] at herr ⊢
        cases hs : collab.encode ct with
        | error msg =>
          simp only [hs]
          exact hfresh
        | ok shards =>
          simp only [hs] at herr ⊢
          cases ht : collab.buildMerkleTree shards with
          | error msg =>
            simp only [ht]
            exact hfresh
          | ok tree =>
            simp only [ht] at herr ⊢
            rcases hloop : storeShardsLoop ops objectID locations shards 0 st with ⟨res, tr⟩
            rw [hloop] at herr
            cases res with
            | error e2 => exact hfresh
            | ok p =>
              obtain ⟨st', locs⟩ := p
              cases hp : proofsLoop collab.getProof tree shards with
              | error e2 =>
                simp only [hp]
                exact hfresh
              | ok ps =>
                simp only [hp] at herr ⊢
                by_cases hv : (getVersion db objectID versionID).isSome = true
                · simp only [addVersion]
                  rw [if_pos hv]
                  exact hfresh
                · simp only [addVersion] at herr ⊢
                  rw [if_neg hv] at herr ⊢
                  simp only [addObject] at herr ⊢
                  simp at herr

/-- Instantiation of the atomicity theorem on a concrete write whose proof
generation fails after all shards were placed: the catalogue still holds no
record under the fresh version id. -/
theorem storeData_error_no_version_record_witness :
    getVersion c3run.2.1 "o1" "v1" = none :=
  storeData_error_no_version_record noProofCollab db0 [1, 2, 3] "b1" "o1" "/tmp/greet.txt"
    assocStore [] cfg0 ["l0", "l1"] "v1" now0 (Err.getProofFailed "proof backend down")
    (by decide) (by decide) (by decide)

/-- Inversion of a successful `StoreData`: every stage succeeded, the version
id was fresh, and the returned result, the trace and the committed catalogue
state are determined by the stage outputs. -/
theorem StoreData_ok_inv {σ τ : Type} (collab : Collab τ) (db : DB) (data : Bytes)
    (bucketID objectID filePath : String) (ops : ShardStoreOps σ) (st : σ) (cfg : Config)
    (locations : List String) (versionID nowStr : String) (out : StoreResult)
    (hok : (StoreData collab db data bucketID objectID filePath ops st cfg locations
      versionID nowStr).1 = Except.ok out) :
    ∃ (comp ct : Bytes) (shards : List Bytes) (tree : τ) (st' : σ)
      (locs : List (String × String)) (tr : List Event) (ps : List String),
      collab.compress data = Except.ok comp
      ∧ collab.encrypt comp cfg.EncryptionKey = Except.ok ct
      ∧ collab.encode ct = Except.ok shards
      ∧ collab.buildMerkleTree shards = Except.ok tree
      ∧ storeShardsLoop ops objectID locations shards 0 st = (Except.ok (st', locs), tr)
      ∧ proofsLoop collab.getProof tree shards = Except.ok ps
      ∧ getVersion db objectID versionID = none
      ∧ out = StoreResult.mk versionID locs ps
      ∧ (StoreData collab db data bucketID objectID filePath ops st cfg locations
          versionID nowStr).2.2.2 = tr ++ [Event.addVersionCall, Event.addObjectCall]
      ∧ (StoreData collab db data bucketID objectID filePath ops st cfg locations
          versionID nowStr).2.1
        = DB.mk db.buckets
            ((objectID, bucketID, filepathBase filePath)
              :: db.objects.filter (fun e => e.1 ≠ objectID))
            (((objectID, versionID),
              (VersionMetadata.mk bucketID objectID versionID (filepathBase filePath) ""
                (trimLeading "." (filepathExt filePath)) nowStr locs
                (convertSliceToMap ps), ct)) :: db.versions)
            ((objectID, versionID) :: db.rootVersions) := by
  by_cases hb : bucketExistsQuery db bucketID = true
  case neg =>
    simp only [StoreData, if_pos hb] at hok
    simp at hok
  case pos =>
    simp only [StoreData, hb, not_true, if_false] at hok ⊢
    cases hc : collab.compress data with
    | error msg =>
      simp only [hc] at hok
      simp at hok
    | ok comp =>
      simp only [hc] at hok ⊢
      cases he : collab.encrypt comp cfg.EncryptionKey with
      | error msg =>
        simp only [he] at hok
        simp at hok
      | ok ct =>
        simp only [he] at hok ⊢
        cases hs : collab.encode ct with
        | error msg =>
          simp only [hs] at hok
          simp at hok
        | ok shards =>
          simp only [hs] at hok ⊢
          cases ht : collab.buildMerkleTree shards with
          | error msg =>
            simp only [ht] at hok
            simp at hok
          | ok tree =>
            simp only [ht] at hok ⊢
            rcases hloop : storeShardsLoop ops objectID locations shards 0 st with ⟨res, tr⟩
            rw [hloop] at hok
            cases res with
            | error e2 => simp at hok
            | ok p =>
              obtain ⟨st', locs⟩ := p
              cases hp : proofsLoop collab.getProof tree shards with
              | error e2 =>
                simp only [hp] at hok
                simp at hok
              | ok ps =>
                simp only [hp] at hok ⊢
                by_cases hv : (getVersion db objectID versionID).isSome = true
                · simp only [addVersion] at hok
                  rw [if_pos hv] at hok
                  simp at hok
                · simp only [addVersion] at hok ⊢
                  rw [if_neg hv] at hok ⊢
                  simp only [addObject] at hok ⊢
                  have hok2 : Except.ok (StoreResult.mk versionID locs ps)
                      = Except.ok out := hok
                  refine ⟨comp, ct, shards, tree, st', locs, tr, ps, ?_, ?_, ?_, ?_,
                    ?_, ?_, Option.not_isSome_iff_eq_none.mp hv,
                    (Except.ok.inj hok2).symm, rfl, rfl⟩ <;>
                    simp [hc, he, hs, ht, hloop, hp]

/-- **C5.** Every successful `StoreData` performs exactly `N = K + M`
shard puts (the trace holds exactly the `N` successful put events, in index
order, before the two catalogue invocations) and returns exactly `N` proofs;
the key list of the returned placement map is exactly
`shard_0 … shard_(N-1)` with `shard_i ↦ locations[i]`. -/
theorem storeData_shard_count {σ τ : Type} (collab : Collab τ) (db : DB) (data : Bytes)
    (bucketID objectID filePath : String) (ops : ShardStoreOps σ) (st : σ) (cfg : Config)
    (locations : List String) (versionID nowStr : String) (out : StoreResult)
    (hN : ∀ b ss, collab.encode b = Except.ok ss →
      ss.length = collab.dataShards + collab.parityShards)
    (hok : (StoreData collab db data bucketID objectID filePath ops st cfg locations
      versionID nowStr).1 = Except.ok out) :
    (StoreData collab db data bucketID objectID filePath ops st cfg locations
      versionID nowStr).2.2.2
      = ((List.range (collab.dataShards + collab.parityShards)).map
          (fun i => Event.putCall i true)) ++ [Event.addVersionCall, Event.addObjectCall]
    ∧ out.proofs.length = collab.dataShards + collab.parityShards
    ∧ out.shardLocations = (List.range (collab.dataShards + collab.parityShards)).map
        (fun i => ("shard_" ++ natRepr i, locations.getD i ""))
    ∧ collab.dataShards + collab.parityShards ≤ locations.length := by
  obtain ⟨comp, ct, shards, tree, st', locs, tr, ps, hc, he, hs, ht, hloop, hp, hv,
    hout, htr, hdb⟩ := StoreData_ok_inv collab db data bucketID objectID filePath ops st
      cfg locations versionID nowStr out hok
  obtain ⟨htr2, hlocs2, hbound⟩ :=
    storeShardsLoop_ok_shape ops objectID locations shards 0 st st' locs tr hloop
  have hlen := hN ct shards hs
  subst hout
  simp only [Nat.zero_add] at htr2 hlocs2
  refine ⟨?_, ?_, ?_, ?_⟩
  · rw [htr, htr2, hlen]
  · show ps.length = collab.dataShards + collab.parityShards
    rw [proofsLoop_ok_length collab.getProof tree shards ps hp, hlen]
  · show locs = _
    rw [hlocs2, hlen]
  · by_cases h0 : shards.length = 0
    · omega
    · have := hbound (shards.length - 1) (by omega)
      omega

/-- Instantiation of the shard-count theorem on a concrete successful write:
two puts, two proofs, and placement keys `shard_0`, `shard_1`. -/
theorem storeData_shard_count_witness :
    c7run.2.2.2
      = ((List.range (mirrorCollab.dataShards + mirrorCollab.parityShards)).map
          (fun i => Event.putCall i true)) ++ [Event.addVersionCall, Event.addObjectCall]
    ∧ (StoreResult.mk "v1" [("shard_0", "l0"), ("shard_1", "l1")]
        ["pf_7", "pf_7"]).proofs.length
      = mirrorCollab.dataShards + mirrorCollab.parityShards
    ∧ (StoreResult.mk "v1" [("shard_0", "l0"), ("shard_1", "l1")]
        ["pf_7", "pf_7"]).shardLocations
      = (List.range (mirrorCollab.dataShards + mirrorCollab.parityShards)).map
          (fun i => ("shard_" ++ natRepr i, ["l0", "l1"].getD i ""))
    ∧ mirrorCollab.dataShards + mirrorCollab.parityShards
      ≤ (["l0", "l1"] : List String).length :=
  storeData_shard_count mirrorCollab db0 [1, 2, 3] "b1" "o1" "/tmp/greet.txt" assocStore
    [] cfg0 ["l0", "l1"] "v1" now0
    (StoreResult.mk "v1" [("shard_0", "l0"), ("shard_1", "l1")] ["pf_7", "pf_7"])
    (fun b ss h => by cases h; rfl) (by decide)

/-- **C4, counterexample.** The claim "StoreData checks `|locations| ≥ N` up
front and fails with `PlacementUnderspecified` with no `StoreShard` call made
before that failure" is false on the code: with one location and N = 2, the
write stores shard 0 (the trace holds a successful put) and only then fails,
inside the placement loop, with an index-out-of-range error. -/
theorem storeData_no_upfront_locations_check_cex :
    c4run.1 = Except.error (Err.indexOutOfRangeLocations 1 1)
    ∧ c4run.2.2.2 = [Event.putCall 0 true] := by
  constructor
  · decide
  · decide

/-- **C4, amended.** `StoreData` has no upfront `|locations| ≥ N` check: the
bound is checked per iteration inside the placement loop, after the bucket
check, compression, encryption, erasure coding and Merkle build. When
`|locations| < |shards|` and puts succeed, it stores shards
`0 … |locations|-1` and then fails with an in-loop index-out-of-range error
at index `|locations|`. -/
theorem storeData_lazy_locations_check {σ τ : Type} (collab : Collab τ) (db : DB)
    (data : Bytes) (bucketID objectID filePath : String) (ops : ShardStoreOps σ) (st : σ)
    (cfg : Config) (locations : List String) (versionID nowStr : String)
    (comp ct : Bytes) (shards : List Bytes) (tree : τ)
    (hbucket : bucketExistsQuery db bucketID = true)
    (hcompress : collab.compress data = Except.ok comp)
    (hencrypt : collab.encrypt comp cfg.EncryptionKey = Except.ok ct)
    (hencode : collab.encode ct = Except.ok shards)
    (htree : collab.buildMerkleTree shards = Except.ok tree)
    (hput : ∀ (s : σ) (i : Int) (shard : Bytes) (loc : String),
      ∃ s', ops.storeShard s objectID i shard loc = Except.ok s')
    (hshort : locations.length < shards.length) :
    (StoreData collab db data bucketID objectID filePath ops st cfg locations versionID
      nowStr).1
      = Except.error (Err.indexOutOfRangeLocations locations.length locations.length)
    ∧ (StoreData collab db data bucketID objectID filePath ops st cfg locations versionID
      nowStr).2.2.2
      = (List.range locations.length).map (fun i => Event.putCall i true) := by
  simp only [StoreData, hbucket, not_true, if_false, hcompress, hencrypt, hencode, htree]
  obtain ⟨h1, h2⟩ := storeShardsLoop_overflow ops objectID locations hput shards 0 st
    (by omega) (by omega)
  rcases hloop : storeShardsLoop ops objectID locations shards 0 st with ⟨res, tr⟩
  rw [hloop] at h1 h2
  simp only at h1 h2
  subst h1
  subst h2
  constructor
  · rfl
  · simp

/-- Instantiation of the lazy-bound-check theorem on the one-location write:
the failure comes after one successful put. -/
theorem storeData_lazy_locations_check_witness :
    c4run.1 = Except.error (Err.indexOutOfRangeLocations 1 1)
    ∧ c4run.2.2.2 = (List.range 1).map (fun i => Event.putCall i true) :=
  storeData_lazy_locations_check mirrorCollab db0 [5] "b1" "o1" "/tmp/a.txt" assocStore
    [] cfg0 ["l0"] "v1" now0 [0, 5] [12, 0, 5] [[12, 0, 5], [12, 0, 5]]
    [[12, 0, 5], [12, 0, 5]] rfl rfl rfl rfl rfl
    (fun s i b l => assocStore_put_ok s "o1" i b l) (by decide)

/-- **C6.** On the read path an individual shard whose key fails to parse or
whose fetch fails is counted as missing without aborting the read; under the
stored-record well-formedness precondition that every parsable key is in
range (which rules out the unchecked-index panic, see the bounds theorem),
`RetrieveData` fails with `InsufficientShards` if and only if the number of
slots counted as missing exceeds `M`; with at most `M` missing it proceeds to
erasure decoding (and can only fail with other, distinctly-typed errors). -/
theorem retrieveData_insufficient_shards_iff {σ τ : Type} (collab : Collab τ) (db : DB)
    (bucketID objectID versionID : String) (ops : ShardStoreOps σ) (st : σ) (cfg : Config)
    (md : VersionMetadata) (ct : Bytes)
    (hmeta : getVersion db objectID versionID = some (md, ct))
    (hkeys : ∀ kv ∈ md.ShardLocations, ∀ i : Int,
      atoi (trimLeading "shard_" kv.1) = some i →
      0 ≤ i ∧ i.toNat < collab.dataShards + collab.parityShards) :
    (RetrieveData collab db bucketID objectID versionID ops st cfg
        = Except.error Err.insufficientShards
      ↔ collab.parityShards < countMissing ops st objectID md.ShardLocations) := by
  obtain ⟨slots', hg, hlen⟩ := gatherShards_count ops st objectID md.ShardLocations
    (List.replicate (collab.dataShards + collab.parityShards) none) 0
    (fun kv hkv i hi => by simpa using hkeys kv hkv i hi)
  simp only [Nat.zero_add] at hg
  simp only [RetrieveData, hmeta]
  rw [hg]
  by_cases hm : collab.parityShards < countMissing ops st objectID md.ShardLocations
  · simp [hm]
  · simp only [hm, iff_false, if_false, getEncryptionKey]
    rcases hd : collab.decode slots' with msg | x
    · simp [hd]
    · rcases hdc : collab.decrypt x cfg.EncryptionKey with m2 | y
      · simp [hd, hdc]
      · rcases hdz : collab.decompress y with m3 | pl
        · simp [hd, hdc, hdz]
        · rcases hf : db.objects.find? (fun e => e.1 = objectID) with _ | entry
          · simp [hd, hdc, hdz, hf]
          · simp [hd, hdc, hdz, hf]

/-- Instantiation of the missing-budget theorem on a record with one
malformed key and one unfetchable shard: two misses exceed M = 1 and the read
fails with `InsufficientShards`. -/
theorem retrieveData_insufficient_shards_iff_witness :
    (RetrieveData mirrorCollab c6db "b1" "o1" "v1" assocStore c6store cfg0
        = Except.error Err.insufficientShards
      ↔ mirrorCollab.parityShards < countMissing assocStore c6store "o1"
          c6md.ShardLocations) :=
  retrieveData_insufficient_shards_iff mirrorCollab c6db "b1" "o1" "v1" assocStore c6store
    cfg0 c6md [9] (by decide)
    (by
      intro kv hkv i hi
      have h2 : kv = ("shard_0", "l0") ∨ kv = ("shard_x", "l1")
          ∨ kv = ("shard_1", "l2") := by simpa [c6md] using hkv
      rcases h2 with h | h | h <;> subst h
      · rw [show atoi (trimLeading "shard_" "shard_0") = some 0 by decide] at hi
        injection hi with h3
        subst h3
        decide
      · rw [show atoi (trimLeading "shard_" "shard_x") = none by decide] at hi
        exact Option.noConfusion hi
      · rw [show atoi (trimLeading "shard_" "shard_1") = some 1 by decide] at hi
        injection hi with h3
        subst h3
        decide)

/-- **C7, counterexample.** The claim "any bit flip in any present shard
makes the read return a typed error" is false on the code: the read path
performs no proof verification, and a flip confined to the parity shard
`shard_1` (present, fetched, but ignored by the decoder because the data
shard is present) yields a fully successful read of the original bytes — no
`ProofFailed`, no `AuthenticationFailure`. -/
theorem retrieveData_tamper_silent_success_cex :
    assocStore.retrieveShard c7run.2.2.1 "o1" 1 "l1" = Except.ok [13, 0, 1, 2, 3]
    ∧ assocStore.retrieveShard c7tampered "o1" 1 "l1" = Except.ok [99, 0, 1, 2, 3]
    ∧ RetrieveData mirrorCollab c7run.2.1 "b1" "o1" "v1" assocStore c7tampered cfg0
      = Except.ok ([1, 2, 3], "greet.txt") := by
  refine ⟨by decide, by decide, by decide⟩

/-- **C7, amended.** `RetrieveData` never returns a silently corrupted
payload: under the authenticated-cipher contract (only the authentic
ciphertext decrypts under the configured key, to the authentic compressed
bytes), every read outcome — over any shard-store contents, tampered or not —
is either a typed error or a success carrying exactly the original payload.
(A flip the erasure decoder ignores can yield success with the original
bytes, and `ProofFailed` is impossible: the code never verifies proofs on
read.) -/
theorem retrieveData_no_corrupted_payload {σ τ : Type} (collab : Collab τ) (db : DB)
    (bucketID objectID versionID : String) (ops : ShardStoreOps σ) (st : σ) (cfg : Config)
    (ct comp p : Bytes)
    (hAuth : ∀ x y, collab.decrypt x cfg.EncryptionKey = Except.ok y → x = ct ∧ y = comp)
    (hdecompress : collab.decompress comp = Except.ok p) :
    (∃ e, RetrieveData collab db bucketID objectID versionID ops st cfg = Except.error e)
    ∨ (∃ fn, RetrieveData collab db bucketID objectID versionID ops st cfg
        = Except.ok (p, fn)) := by
  rcases hv : getVersion db objectID versionID with _ | mdct
  · exact Or.inl ⟨Err.metadataFetchFailed versionID, by simp [RetrieveData, hv]⟩
  · rcases hg : gatherShards ops st objectID mdct.1.ShardLocations
        (List.replicate (collab.dataShards + collab.parityShards) none) 0 with e | gathered
    · exact Or.inl ⟨e, by simp [RetrieveData, hv, hg]⟩
    · by_cases hm : collab.parityShards < gathered.2
      · exact Or.inl ⟨Err.insufficientShards, by simp [RetrieveData, hv, hg, hm]⟩
      · rcases hd : collab.decode gathered.1 with msg | x
        · exact Or.inl ⟨Err.erasureDecodeFailed msg, by simp [RetrieveData, hv, hg, hm, hd]⟩
        · rcases hdc : collab.decrypt x cfg.EncryptionKey with m2 | y
          · exact Or.inl ⟨Err.decryptionFailed m2,
              by simp [RetrieveData, hv, hg, hm, hd, getEncryptionKey, hdc]⟩
          · have hy : y = comp := (hAuth x y hdc).2
            subst hy
            rcases hf : db.objects.find? (fun e => e.1 = objectID) with _ | entry
            · exact Or.inl ⟨Err.filenameFetchFailed objectID, by
                simp [RetrieveData, hv, hg, hm, hd, getEncryptionKey, hdc, hdecompress, hf]⟩
            · exact Or.inr ⟨entry.2.2, by
                simp [RetrieveData, hv, hg, hm, hd, getEncryptionKey, hdc, hdecompress, hf]⟩

/-- Instantiation of the no-corruption theorem on the tampered store of the
concrete write, with the single-ciphertext oracle cipher: the read returns an
error or exactly `[1, 2, 3]`. -/
theorem retrieveData_no_corrupted_payload_witness :
    (∃ e, RetrieveData oracleCollab c7run.2.1 "b1" "o1" "v1" assocStore c7tampered cfg0
      = Except.error e)
    ∨ (∃ fn, RetrieveData oracleCollab c7run.2.1 "b1" "o1" "v1" assocStore c7tampered cfg0
      = Except.ok ([1, 2, 3], fn)) :=
  retrieveData_no_corrupted_payload oracleCollab c7run.2.1 "b1" "o1" "v1" assocStore
    c7tampered cfg0 [13, 0, 1, 2, 3] [0, 1, 2, 3] [1, 2, 3]
    (fun x y h => by
      simp only [oracleCollab, cfg0] at h
      by_cases hx : x = [13, 0, 1, 2, 3]
      · rw [if_pos (And.intro hx trivial)] at h
        exact ⟨hx, (Except.ok.inj h).symm⟩
      · rw [if_neg (fun hc => hx hc.1)] at h
        exact Except.noConfusion h)
    (by decide)

theorem endsWithZ_append_z (s : String) : endsWithZ (s ++ "Z") = true := by
  have h : (s ++ "Z").data = s.data ++ ['Z'] := String.data_append s "Z"
  simp [endsWithZ, h, List.getLast?_concat]

/-- On a machine whose local zone offset is zero, the Go RFC 3339 rendering
ends with the `Z` designator. -/
theorem formatRFC3339_utc_endsWithZ (t : GoTime) (h : t.offsetMinutes = 0) :
    endsWithZ (formatRFC3339 t) = true := by
  rw [formatRFC3339, rfc3339Offset, if_pos h]
  exact endsWithZ_append_z _

/-- **C8, counterexample.** The claim that `creation-date` is an RFC 3339
**UTC** instant is false on the code: `time.Now()` carries the process-local
zone and the code never calls `.UTC()`, so on a machine one hour east of UTC
the committed record's creation date reads `…+01:00` — a local-offset
rendering, not a `Z`-designated UTC instant. -/
theorem storeData_creation_date_not_utc_cex :
    c8run.1 = Except.ok (StoreResult.mk "v1" [("shard_0", "l0"), ("shard_1", "l1")]
      ["pf_7", "pf_7"])
    ∧ (getVersion c8run.2.1 "o1" "v1").map (fun e => e.1.CreationDate)
      = some "2026-10-11T12:00:00+01:00"
    ∧ endsWithZ "2026-10-11T12:00:00+01:00" = false := by
  refine ⟨by decide, by decide, by decide⟩

/-- **C8, amended.** The `VersionMetadata` record committed by a successful
`StoreData` has `Filename` equal to the last path component of the file path
and `Format` equal to its trailing extension without the leading dot (empty
if none), as claimed; its `creation-date` is the RFC 3339 rendering of the
current time in the **process-local zone** — a `Z`-designated UTC instant
only when the local zone offset is zero. -/
theorem storeData_metadata_fields {σ τ : Type} (collab : Collab τ) (db : DB) (data : Bytes)
    (bucketID objectID filePath : String) (ops : ShardStoreOps σ) (st : σ) (cfg : Config)
    (locations : List String) (versionID : String) (t : GoTime) (out : StoreResult)
    (hok : (StoreData collab db data bucketID objectID filePath ops st cfg locations
      versionID (formatRFC3339 t)).1 = Except.ok out) :
    ∃ (md : VersionMetadata) (ctb : Bytes),
      getVersion (StoreData collab db data bucketID objectID filePath ops st cfg locations
        versionID (formatRFC3339 t)).2.1 objectID versionID = some (md, ctb)
      ∧ md.Filename = filepathBase filePath
      ∧ md.Format = trimLeading "." (filepathExt filePath)
      ∧ md.CreationDate = formatRFC3339 t
      ∧ (t.offsetMinutes = 0 → endsWithZ md.CreationDate = true) := by
  obtain ⟨comp, ct, shards, tree, st', locs, tr, ps, hc, he, hs, ht, hloop, hp, hv,
    hout, htr, hdb⟩ := StoreData_ok_inv collab db data bucketID objectID filePath ops st
      cfg locations versionID (formatRFC3339 t) out hok
  refine ⟨VersionMetadata.mk bucketID objectID versionID (filepathBase filePath) ""
      (trimLeading "." (filepathExt filePath)) (formatRFC3339 t) locs
      (convertSliceToMap ps), ct, ?_, rfl, rfl, rfl, ?_⟩
  · rw [hdb]
    simp [getVersion]
  · intro h0
    exact formatRFC3339_utc_endsWithZ t h0

/-- Instantiation of the metadata-fields theorem on the concrete write (UTC
local zone): the committed record carries `greet.txt`, `txt` and a
`Z`-designated stamp. -/
theorem storeData_metadata_fields_witness :
    ∃ (md : VersionMetadata) (ctb : Bytes),
      getVersion (StoreData mirrorCollab db0 [1, 2, 3] "b1" "o1" "/tmp/greet.txt"
        assocStore [] cfg0 ["l0", "l1"] "v1"
        (formatRFC3339 (GoTime.mk 2026 10 11 12 0 0 0))).2.1 "o1" "v1" = some (md, ctb)
      ∧ md.Filename = filepathBase "/tmp/greet.txt"
      ∧ md.Format = trimLeading "." (filepathExt "/tmp/greet.txt")
      ∧ md.CreationDate = formatRFC3339 (GoTime.mk 2026 10 11 12 0 0 0)
      ∧ ((GoTime.mk 2026 10 11 12 0 0 0).offsetMinutes = 0 →
          endsWithZ md.CreationDate = true) :=
  storeData_metadata_fields mirrorCollab db0 [1, 2, 3] "b1" "o1" "/tmp/greet.txt"
    assocStore [] cfg0 ["l0", "l1"] "v1" (GoTime.mk 2026 10 11 12 0 0 0)
    (StoreResult.mk "v1" [("shard_0", "l0"), ("shard_1", "l1")] ["pf_7", "pf_7"])
    (by decide)

theorem shardFileName_ne_empty (objectID : String) (shardIdx : Int) :
    shardFileName objectID shardIdx ≠ "" := by
  intro h
  have hlen : (shardFileName objectID shardIdx).length = 0 := by rw [h]; rfl
  rw [shardFileName] at hlen
  simp only [String.length_append] at hlen
  have h7 : ("_shard_" : String).length = 7 := rfl
  omega

/-- **C9.** The local backend persists exactly the given bytes at
`{base}/{location}/{object-id}_shard_{index}` and `RetrieveShard` with the
same (object-id, shard-index, location) triple returns exactly those bytes:
for every byte string, retrieve after a successful store yields it back
(put/get are inverses). The path hypotheses say the configured base path and
the location tag are non-empty (clean path components). -/
theorem localShardStore_put_get_inverse (store : LocalShardStore) (fs : FileSystem)
    (objectID : String) (shardIdx : Int) (shard : Bytes) (location : String)
    (hb : store.BasePath ≠ "") (hl : location ≠ "") :
    ∃ fs', localStoreShard store fs objectID shardIdx shard location = Except.ok fs'
      ∧ localRetrieveShard store fs' objectID shardIdx location = Except.ok shard
      ∧ shardPathOf store objectID shardIdx location
        = store.BasePath ++ "/" ++ location ++ "/" ++ shardFileName objectID shardIdx := by
  refine ⟨_, rfl, ?_, ?_⟩
  · simp [localRetrieveShard, List.find?]
  · simp [shardPathOf, filepathJoin, List.filter, hb, hl,
      shardFileName_ne_empty objectID shardIdx, List.foldl]

/-- Instantiation of the local-backend inverse theorem on a concrete shard. -/
theorem localShardStore_put_get_inverse_witness :
    ∃ fs', localStoreShard (LocalShardStore.mk "/base") [] "o1" 0 [1] "l0" = Except.ok fs'
      ∧ localRetrieveShard (LocalShardStore.mk "/base") fs' "o1" 0 "l0" = Except.ok [1]
      ∧ shardPathOf (LocalShardStore.mk "/base") "o1" 0 "l0"
        = (LocalShardStore.mk "/base").BasePath ++ "/" ++ "l0" ++ "/" ++ shardFileName "o1" 0 :=
  localShardStore_put_get_inverse (LocalShardStore.mk "/base") [] "o1" 0 [1] "l0"
    (by decide) (by decide)

/-- **C10.** `RetrieveData`'s gather loop writes each successfully fetched
shard into the fixed array of `N` slots at the index parsed from its key,
with no bounds check of its own: under the precondition that every parsable
placement key is in `[0, N)`, the loop completes without the out-of-range
access (first conjunct); without that precondition the unchecked slice write
is reachable — a key `shard_5` with a successful fetch and `N = 2` panics
(second conjunct, the concrete escape). -/
theorem gather_index_bounds {σ : Type} (ops : ShardStoreOps σ) (st : σ) (objectID : String)
    (keys : List (String × String)) (n m : Nat)
    (hkeys : ∀ kv ∈ keys, ∀ i : Int, atoi (trimLeading "shard_" kv.1) = some i →
      0 ≤ i ∧ i.toNat < n) :
    (∃ slots' missing, gatherShards ops st objectID keys (List.replicate n none) m
        = Except.ok (slots', missing))
    ∧ gatherShards assocStore badStore "o" [("shard_5", "l")] (List.replicate 2 none) 0
      = Except.error (Err.panicIndexOutOfRange 5 2) := by
  constructor
  · obtain ⟨slots', hg, _⟩ := gatherShards_count ops st objectID keys
      (List.replicate n none) m (fun kv hkv i hi => by simpa using hkeys kv hkv i hi)
    exact ⟨slots', _, hg⟩
  · decide

/-- Instantiation of the bounds theorem for a well-formed single-key record. -/
theorem gather_index_bounds_witness :
    (∃ slots' missing, gatherShards assocStore c6store "o1" [("shard_0", "l0")]
        (List.replicate 2 none) 0 = Except.ok (slots', missing))
    ∧ gatherShards assocStore badStore "o" [("shard_5", "l")] (List.replicate 2 none) 0
      = Except.error (Err.panicIndexOutOfRange 5 2) :=
  gather_index_bounds assocStore c6store "o1" [("shard_0", "l0")] 2 0
    (by
      intro kv hkv i hi
      have h2 : kv = ("shard_0", "l0") := by simpa using hkv
      subst h2
      rw [show atoi (trimLeading "shard_" "shard_0") = some 0 by decide] at hi
      injection hi with h3
      subst h3
      decide)

end VaultStorageEngine
